import Mathlib

/-!
# DMT client registry: binary search tree store and scoring engine

Shallow embedding of `src/incl.h` and `src/struct.cpp`.

* `int` fields are `Int`. The only `int` arithmetic of the embedded code is the
  loop counter of `Compute_Risk_Score`: `accidents_loop_int32` models it as a
  32-bit `int`, and `accidents_loop` is the same loop with an unbounded counter,
  which gives the same value whenever `nb_accidents_due < INT_MAX`.
* `double` is read in two ways. For arithmetic it is an arbitrary linearly
  ordered field `F`; the claims about scores are stated at `F = ℝ` with
  `Real.exp`, and the same definitions run at `F = ℚ`. `std::exp` is a
  parameter `exp : F → F` of the functions that call it. For the comparisons
  of the validation it can also be `Dbl F`, which has NaN and the infinities.
* A `Node*` is a value of `Node F`: `Node.nil` is `nullptr`, `Node.node d l r`
  is a pointer to a node holding `d` with children `l` and `r`.
* The global `g_root` is passed and returned explicitly.
* `std::rand()` is a stream `rand : Nat → Nat`: `rand k` is what the `k`-th
  call returns; the number of calls made so far is threaded as state.
* Console output is dropped, except for `Inorder_Traversal`, whose printed
  records are returned as a list, and for `Is_Valid_Client_Data_out`, which is
  `Is_Valid_Client_Data` with the printed messages kept.
-/

namespace DMT

/-- Record `struct Client` of `incl.h`. -/
structure Client (F : Type) where
  client_id : Int
  client_name : String
  client_age : Int
  phone_number : String
  address : String
  policy_type : String
  car_value : F
  nb_accidents_due : Int
  nb_accidents_not_due : Int
  nb_suspensions : Int
  risk_score : F
  trust_score : F
  monthly_premium : F

/-- A `Node*` of `incl.h`: either `nullptr` or a node with data and two children. -/
inductive Node (F : Type) where
  | nil : Node F
  | node (data : Client F) (left : Node F) (right : Node F) : Node F

section Doubles

variable {F : Type}

/-- A `double` as far as its comparisons go: NaN, an infinity, or a finite
value taken in `F`. Rounding and the sign of zero are not represented; they
play no part in the outcome of a comparison. -/
inductive Dbl (F : Type) where
  | nan : Dbl F
  | neg_inf : Dbl F
  | fin (x : F) : Dbl F
  | pos_inf : Dbl F

/-- The comparison `a < b` of two doubles: false as soon as one side is NaN. -/
def Dbl.lt [LT F] : Dbl F → Dbl F → Prop
  | Dbl.nan, Dbl.nan => False
  | Dbl.nan, Dbl.neg_inf => False
  | Dbl.nan, Dbl.fin _ => False
  | Dbl.nan, Dbl.pos_inf => False
  | Dbl.neg_inf, Dbl.nan => False
  | Dbl.neg_inf, Dbl.neg_inf => False
  | Dbl.neg_inf, Dbl.fin _ => True
  | Dbl.neg_inf, Dbl.pos_inf => True
  | Dbl.fin _, Dbl.nan => False
  | Dbl.fin _, Dbl.neg_inf => False
  | Dbl.fin x, Dbl.fin y => x < y
  | Dbl.fin _, Dbl.pos_inf => True
  | Dbl.pos_inf, Dbl.nan => False
  | Dbl.pos_inf, Dbl.neg_inf => False
  | Dbl.pos_inf, Dbl.fin _ => False
  | Dbl.pos_inf, Dbl.pos_inf => False

/-- The comparison `a <= b` of two doubles: false as soon as one side is NaN. -/
def Dbl.le [LE F] : Dbl F → Dbl F → Prop
  | Dbl.nan, Dbl.nan => False
  | Dbl.nan, Dbl.neg_inf => False
  | Dbl.nan, Dbl.fin _ => False
  | Dbl.nan, Dbl.pos_inf => False
  | Dbl.neg_inf, Dbl.nan => False
  | Dbl.neg_inf, Dbl.neg_inf => True
  | Dbl.neg_inf, Dbl.fin _ => True
  | Dbl.neg_inf, Dbl.pos_inf => True
  | Dbl.fin _, Dbl.nan => False
  | Dbl.fin _, Dbl.neg_inf => False
  | Dbl.fin x, Dbl.fin y => x ≤ y
  | Dbl.fin _, Dbl.pos_inf => True
  | Dbl.pos_inf, Dbl.nan => False
  | Dbl.pos_inf, Dbl.neg_inf => False
  | Dbl.pos_inf, Dbl.fin _ => False
  | Dbl.pos_inf, Dbl.pos_inf => True

instance Dbl.instLT [LT F] : LT (Dbl F) := ⟨Dbl.lt⟩

instance Dbl.instLE [LE F] : LE (Dbl F) := ⟨Dbl.le⟩

instance Dbl.instZero [Zero F] : Zero (Dbl F) := ⟨Dbl.fin 0⟩

instance Dbl.decLt [LT F] [DecidableRel (fun a b : F => a < b)] :
    DecidableRel (fun a b : Dbl F => a < b)
  | Dbl.nan, Dbl.nan => isFalse (fun h => h)
  | Dbl.nan, Dbl.neg_inf => isFalse (fun h => h)
  | Dbl.nan, Dbl.fin _ => isFalse (fun h => h)
  | Dbl.nan, Dbl.pos_inf => isFalse (fun h => h)
  | Dbl.neg_inf, Dbl.nan => isFalse (fun h => h)
  | Dbl.neg_inf, Dbl.neg_inf => isFalse (fun h => h)
  | Dbl.neg_inf, Dbl.fin _ => isTrue True.intro
  | Dbl.neg_inf, Dbl.pos_inf => isTrue True.intro
  | Dbl.fin _, Dbl.nan => isFalse (fun h => h)
  | Dbl.fin _, Dbl.neg_inf => isFalse (fun h => h)
  | Dbl.fin x, Dbl.fin y => inferInstanceAs (Decidable (x < y))
  | Dbl.fin _, Dbl.pos_inf => isTrue True.intro
  | Dbl.pos_inf, Dbl.nan => isFalse (fun h => h)
  | Dbl.pos_inf, Dbl.neg_inf => isFalse (fun h => h)
  | Dbl.pos_inf, Dbl.fin _ => isFalse (fun h => h)
  | Dbl.pos_inf, Dbl.pos_inf => isFalse (fun h => h)

instance Dbl.decLe [LE F] [DecidableRel (fun a b : F => a ≤ b)] :
    DecidableRel (fun a b : Dbl F => a ≤ b)
  | Dbl.nan, Dbl.nan => isFalse (fun h => h)
  | Dbl.nan, Dbl.neg_inf => isFalse (fun h => h)
  | Dbl.nan, Dbl.fin _ => isFalse (fun h => h)
  | Dbl.nan, Dbl.pos_inf => isFalse (fun h => h)
  | Dbl.neg_inf, Dbl.nan => isFalse (fun h => h)
  | Dbl.neg_inf, Dbl.neg_inf => isTrue True.intro
  | Dbl.neg_inf, Dbl.fin _ => isTrue True.intro
  | Dbl.neg_inf, Dbl.pos_inf => isTrue True.intro
  | Dbl.fin _, Dbl.nan => isFalse (fun h => h)
  | Dbl.fin _, Dbl.neg_inf => isFalse (fun h => h)
  | Dbl.fin x, Dbl.fin y => inferInstanceAs (Decidable (x ≤ y))
  | Dbl.fin _, Dbl.pos_inf => isTrue True.intro
  | Dbl.pos_inf, Dbl.nan => isFalse (fun h => h)
  | Dbl.pos_inf, Dbl.neg_inf => isFalse (fun h => h)
  | Dbl.pos_inf, Dbl.fin _ => isFalse (fun h => h)
  | Dbl.pos_inf, Dbl.pos_inf => isTrue True.intro

end Doubles

section Store

variable {F : Type}

/-- `Create_Node`: a fresh leaf holding a copy of the client. -/
def Create_Node (client : Client F) : Node F :=
  Node.node client Node.nil Node.nil

/-- `Insert_Node`: strictly smaller ids go left, strictly greater go right,
an equal id leaves the tree as it is. -/
def Insert_Node : Node F → Client F → Node F
  | Node.nil, client => Create_Node client
  | Node.node data left right, client =>
    if client.client_id < data.client_id then
      Node.node data (Insert_Node left client) right
    else if client.client_id > data.client_id then
      Node.node data left (Insert_Node right client)
    else
      Node.node data left right

/-- `Search_Node`: the node holding `client_id`, or `nil` (`nullptr`). -/
def Search_Node : Node F → Int → Node F
  | Node.nil, _ => Node.nil
  | Node.node data left right, client_id =>
    if client_id = data.client_id then Node.node data left right
    else if client_id < data.client_id then Search_Node left client_id
    else Search_Node right client_id

/-- `Find_Min`: follow `left` pointers while there is one. -/
def Find_Min : Node F → Node F
  | Node.nil => Node.nil
  | Node.node data Node.nil right => Node.node data Node.nil right
  | Node.node _ (Node.node ld ll lr) _ => Find_Min (Node.node ld ll lr)

/-- `Remove_Node`. In the two-children case `Find_Min right` is never `nil`
(see `Find_Min_ne_nil`); the branch for `nil` there stands for the null
dereference the source would make and is never taken. -/
def Remove_Node : Node F → Int → Node F
  | Node.nil, _ => Node.nil
  | Node.node data left right, client_id =>
    if client_id < data.client_id then
      Node.node data (Remove_Node left client_id) right
    else if client_id > data.client_id then
      Node.node data left (Remove_Node right client_id)
    else
      match left, right with
      | Node.nil, Node.nil => Node.nil
      | Node.nil, Node.node rd rl rr => Node.node rd rl rr
      | Node.node ld ll lr, Node.nil => Node.node ld ll lr
      | Node.node ld ll lr, Node.node rd rl rr =>
        match Find_Min (Node.node rd rl rr) with
        | Node.node temp _ _ =>
          Node.node temp (Node.node ld ll lr) (Remove_Node (Node.node rd rl rr) temp.client_id)
        | Node.nil => Node.node data (Node.node ld ll lr) (Node.node rd rl rr)

/-- `Inorder_Traversal`: the records in the order they are printed
(left subtree, node, right subtree). -/
def Inorder_Traversal : Node F → List (Client F)
  | Node.nil => []
  | Node.node data left right => Inorder_Traversal left ++ data :: Inorder_Traversal right

/-- `Retrieve_Client_By_Id` on the store `g_root`. -/
def Retrieve_Client_By_Id (g_root : Node F) (client_id : Int) : Node F :=
  Search_Node g_root client_id

/-- Test `p == nullptr` on a node pointer. -/
def Node.isNull : Node F → Bool
  | Node.nil => true
  | Node.node _ _ _ => false

/-- `Remove_Client_By_Id`: the returned flag and the new `g_root`. -/
def Remove_Client_By_Id (g_root : Node F) (client_id : Int) : Bool × Node F :=
  if (Search_Node g_root client_id).isNull then (false, g_root)
  else (true, Remove_Node g_root client_id)

/-- `Clear_Tree`: the store becomes empty. -/
def Clear_Tree (_g_root : Node F) : Node F := Node.nil

end Store

section Validation

variable {F : Type} [LT F] [Zero F] [DecidableRel (fun a b : F => a < b)]

/-- `Is_Valid_Client_Data`: the eight checks, in source order. The type `F` of
`car_value` only needs its comparison `<` and its zero, so the definition
applies to an ordered field as well as to `Dbl`, where `car_value` can be NaN. -/
def Is_Valid_Client_Data (c : Client F) : Bool :=
  if c.client_id < 0 then false
  else if c.client_age < 18 then false
  else if c.car_value < 0 then false
  else if c.nb_accidents_due < 0 ∨ c.nb_accidents_not_due < 0 ∨ c.nb_suspensions < 0 then false
  else if c.client_name.isEmpty then false
  else if c.phone_number.isEmpty then false
  else if c.address.isEmpty then false
  else if c.policy_type.isEmpty then false
  else true

/-- `Is_Valid_Client_Data` with its console output kept: the lines written to
`std::cout` during the call, and the returned value. -/
def Is_Valid_Client_Data_out (c : Client F) : List String × Bool :=
  if c.client_id < 0 then (["Error: client_id cannot be negative.\n"], false)
  else if c.client_age < 18 then (["Error: client_age must be >= 18.\n"], false)
  else if c.car_value < 0 then (["Error: car_value cannot be negative.\n"], false)
  else if c.nb_accidents_due < 0 ∨ c.nb_accidents_not_due < 0 ∨ c.nb_suspensions < 0 then
    (["Error: accidents/suspensions cannot be negative.\n"], false)
  else if c.client_name.isEmpty then (["Error: client_name cannot be empty.\n"], false)
  else if c.phone_number.isEmpty then (["Error: phone_number cannot be empty.\n"], false)
  else if c.address.isEmpty then (["Error: address cannot be empty.\n"], false)
  else if c.policy_type.isEmpty then (["Error: policy_type cannot be empty.\n"], false)
  else ([], true)

/-- `Insert_Client`: insert only if the data is valid. -/
def Insert_Client (g_root : Node F) (new_client : Client F) : Node F :=
  if !Is_Valid_Client_Data new_client then g_root
  else Insert_Node g_root new_client

end Validation

section Scoring

variable {F : Type} [LinearOrderedField F]

/-- `INT_MAX` of a 32-bit `int`. -/
def INT_MAX : Int := 2147483647

/-- The loop `for (int i = 1; i <= n; ++i) acc += 10.0 / i` of
`Compute_Risk_Score`, with the counter `i` as a 32-bit `int`. `some acc` is the
value of `accidents_penalty` when the loop is left. `none` means that no value
is produced: either `++i` is executed at `i = INT_MAX` (signed overflow, which
is undefined behaviour; a build that wraps the counter to `INT_MIN` goes on
looping, every `int` being `<= INT_MAX`), or `fuel` loop tests were not enough. -/
def accidents_loop_int32 (n : Int) : Nat → Int → F → Option F
  | 0, _, _ => none
  | fuel + 1, i, acc =>
    if i ≤ n then
      if i = INT_MAX then none
      else accidents_loop_int32 n fuel (i + 1) (acc + 10 / (i : F))
    else some acc

/-- `Compute_Risk_Score` with the loop counter as a 32-bit `int`: `none` when
the loop produces no value. `r` is the value returned by `std::rand()`. -/
def Compute_Risk_Score_int32 (fuel : Nat) (r : Nat) (c : Client F) : Option F :=
  let age_factor : F := if c.client_age < 25 then 1.5 else (if c.client_age < 35 then 1.2 else 1.0)
  let value_factor : F := c.car_value / 10000
  match accidents_loop_int32 c.nb_accidents_due fuel 1 0 with
  | none => none
  | some accidents_penalty =>
    let suspension_penalty : F := 3 * (c.nb_suspensions : F)
    let random_factor : F := ((r % 3 : Nat) : F)
    some (age_factor * value_factor + accidents_penalty + suspension_penalty + random_factor)

/-- The loop `for (int i = 1; i <= n; ++i) acc += 10.0 / i` of
`Compute_Risk_Score` with an unbounded counter: `fuel` is the number of
iterations still to run. It is the value `accidents_loop_int32` returns
whenever `n < INT_MAX` (`accidents_loop_int32_eq`); for `n = INT_MAX` the
source returns no value (`accidents_loop_int32_overflow`). -/
def accidents_loop (n : Int) : Nat → Int → F → F
  | 0, _, acc => acc
  | fuel + 1, i, acc =>
    if i ≤ n then accidents_loop n fuel (i + 1) (acc + 10 / (i : F)) else acc

/-- `Compute_Risk_Score` with the unbounded loop counter; `r` is the value
returned by the call of `std::rand()`. The loop runs `nb_accidents_due` times,
so that much fuel is enough. It is the value the source returns whenever
`nb_accidents_due < INT_MAX` (`Compute_Risk_Score_int32_eq`). -/
def Compute_Risk_Score (r : Nat) (c : Client F) : F :=
  let age_factor : F := if c.client_age < 25 then 1.5 else (if c.client_age < 35 then 1.2 else 1.0)
  let value_factor : F := c.car_value / 10000
  let accidents_penalty : F := accidents_loop c.nb_accidents_due c.nb_accidents_due.toNat 1 0
  let suspension_penalty : F := 3 * (c.nb_suspensions : F)
  let random_factor : F := ((r % 3 : Nat) : F)
  age_factor * value_factor + accidents_penalty + suspension_penalty + random_factor

/-- `Compute_Trust_Score`. -/
def Compute_Trust_Score (c : Client F) : F :=
  let base_trust : F := 60
  let not_due_bonus : F := 5 * (c.nb_accidents_not_due : F)
  let due_penalty : F := 15 * (c.nb_accidents_due : F)
  let suspension_penalty : F := 20 * (c.nb_suspensions : F)
  let policy_bonus : F :=
    if c.policy_type = "Gold" then 12 else if c.policy_type = "Premium" then 7 else 0
  let risk_deduction : F := c.risk_score / 2
  let score : F :=
    base_trust + not_due_bonus - due_penalty - suspension_penalty + policy_bonus - risk_deduction
  if score < 0 then 0 else score

/-- `Compute_Monthly_Premium`; `exp` is `std::exp`. -/
def Compute_Monthly_Premium (exp : F → F) (c : Client F) : F :=
  let base_premium : F := 40
  let risk_component : F := exp (c.risk_score / 50) * 20
  let trust_discount : F :=
    if c.trust_score > 70 then 10 else (if c.trust_score > 50 then 5 else 0)
  let policy_multiplier : F :=
    if c.policy_type = "Premium" then 1.1 else if c.policy_type = "Gold" then 1.2 else 1.0
  let premium : F := (base_premium + risk_component - trust_discount) * policy_multiplier
  if premium < 35 then 35 else premium

/-- The three assignments in the body of the lambda `Recompute_Recursive`, on
`root->data`, in source order: `risk_score`, then `monthly_premium`, then
`trust_score`; each reads the record as the previous assignment left it.
`r` is the value returned by the call of `std::rand()` inside `Compute_Risk_Score`. -/
def Recompute_Node_Data (exp : F → F) (r : Nat) (data : Client F) : Client F :=
  let c1 : Client F := { data with risk_score := Compute_Risk_Score r data }
  let c2 : Client F := { c1 with monthly_premium := Compute_Monthly_Premium exp c1 }
  let c3 : Client F := { c2 with trust_score := Compute_Trust_Score c2 }
  c3

/-- The lambda `Recompute_Recursive` of `Recompute_All_Scores`: in-order walk
(left subtree, node, right subtree). The state `k` is the number of
`std::rand()` calls made so far. -/
def Recompute_Recursive (exp : F → F) (rand : Nat → Nat) : Node F → Nat → Node F × Nat
  | Node.nil, k => (Node.nil, k)
  | Node.node data left right, k =>
    let (left1, k1) := Recompute_Recursive exp rand left k
    let data1 := Recompute_Node_Data exp (rand k1) data
    let (right1, k2) := Recompute_Recursive exp rand right (k1 + 1)
    (Node.node data1 left1 right1, k2)

/-- `Recompute_All_Scores`: the new `g_root` and the new count of `std::rand()` calls. -/
def Recompute_All_Scores (exp : F → F) (rand : Nat → Nat) (g_root : Node F) (k : Nat) :
    Node F × Nat :=
  Recompute_Recursive exp rand g_root k

/-- The five records of `Load_Sample_Data`. -/
def sample_c1 : Client F :=
  ⟨100, "Alice Johnson", 25, "0612345678", "123 Maple St", "Basic", 8000, 2, 1, 0, 0, 0, 0⟩

/-- Second sample record. -/
def sample_c2 : Client F :=
  ⟨150, "Bob Wilson", 40, "0755664433", "456 Oak Ave", "Premium", 15000, 1, 0, 1, 0, 0, 0⟩

/-- Third sample record. -/
def sample_c3 : Client F :=
  ⟨80, "Charlie Adams", 30, "0788991122", "789 Pine Rd", "Gold", 20000, 3, 2, 2, 0, 0, 0⟩

/-- Fourth sample record. -/
def sample_c4 : Client F :=
  ⟨200, "Diana Roberts", 55, "0755123456", "234 Elm St", "Basic", 5000, 0, 0, 0, 0, 0, 0⟩

/-- Fifth sample record. -/
def sample_c5 : Client F :=
  ⟨120, "Evan Harris", 29, "0687654321", "567 Birch Ln", "Gold", 12000, 1, 2, 0, 0, 0, 0⟩

/-- `Load_Sample_Data`: clear, five inserts, one recompute pass. -/
def Load_Sample_Data (exp : F → F) (rand : Nat → Nat) (g_root : Node F) (k : Nat) :
    Node F × Nat :=
  let g0 := Clear_Tree g_root
  let g1 := Insert_Client g0 sample_c1
  let g2 := Insert_Client g1 sample_c2
  let g3 := Insert_Client g2 sample_c3
  let g4 := Insert_Client g3 sample_c4
  let g5 := Insert_Client g4 sample_c5
  Recompute_All_Scores exp rand g5 k

end Scoring

section Vocabulary

variable {F : Type}

/-- The `client_id` values in the order `Inorder_Traversal` prints them. -/
def ids (t : Node F) : List Int :=
  (Inorder_Traversal t).map Client.client_id

/-- Number of nodes (records) of a tree. -/
def Node.size : Node F → Nat
  | Node.nil => 0
  | Node.node _ left right => left.size + 1 + right.size

/-- The ordering invariant: in-order ids are strictly ascending. -/
def Ordered (t : Node F) : Prop :=
  (ids t).Pairwise (fun a b => a < b)

/-- One call of the public store interface. -/
inductive Call (F : Type) where
  | insert (c : Client F) : Call F
  | remove (client_id : Int) : Call F

/-- Effect of one call on `g_root`. -/
def apply_call [LT F] [Zero F] [DecidableRel (fun a b : F => a < b)] (g_root : Node F) :
    Call F → Node F
  | Call.insert c => Insert_Client g_root c
  | Call.remove client_id => (Remove_Client_By_Id g_root client_id).2

/-- The store obtained from the empty store by a sequence of calls, first call first. -/
def store_after [LT F] [Zero F] [DecidableRel (fun a b : F => a < b)]
    (calls : List (Call F)) : Node F :=
  calls.foldl apply_call Node.nil

/-- A step from a node to one of its children. -/
inductive Dir where
  | left : Dir
  | right : Dir

/-- The subtree reached from the root by following the given steps
(`nil` when the path leaves the tree). -/
def subtree_at : Node F → List Dir → Node F
  | t, [] => t
  | Node.nil, _ :: _ => Node.nil
  | Node.node _ left _, Dir.left :: p => subtree_at left p
  | Node.node _ _ right, Dir.right :: p => subtree_at right p

/-- A record with the given id and otherwise fixed valid fields, for concrete scenarios. -/
def client_of_id [LinearOrderedField F] (client_id : Int) : Client F :=
  ⟨client_id, "Name", 30, "0600000000", "1 Main St", "Basic", 1000, 0, 0, 0, 0, 0, 0⟩

/-- The calls of the two-children deletion scenario: ids 50, 30, 70, 20, 40, 60, 80
inserted in that order. -/
def scenario_calls : List (Call ℚ) :=
  [50, 30, 70, 20, 40, 60, 80].map (fun k => Call.insert (client_of_id k))

/-- The store `Load_Sample_Data` has built when it calls `Recompute_All_Scores`:
the five sample records inserted into the cleared store. -/
def sample_inserts [LinearOrderedField F] : Node F :=
  Insert_Client (Insert_Client (Insert_Client (Insert_Client (Insert_Client
    Node.nil sample_c1) sample_c2) sample_c3) sample_c4) sample_c5

/-- The stream of `std::rand()` results that are all 0. -/
def zero_draws : Nat → Nat := fun _ => 0

/-- A candidate record with `client_age = 17`, otherwise well formed. -/
def minor_client : Client ℚ :=
  { (client_of_id 7 : Client ℚ) with client_age := 17 }

/-- The store obtained from the empty store by `Insert_Client` of each client
of the list in turn, first element first. -/
def insert_all [LT F] [Zero F] [DecidableRel (fun a b : F => a < b)]
    (cs : List (Client F)) : Node F :=
  cs.foldl Insert_Client Node.nil

/-- The five sample records, in the order `Load_Sample_Data` inserts them. -/
def sample_clients [LinearOrderedField F] : List (Client F) :=
  [sample_c1, sample_c2, sample_c3, sample_c4, sample_c5]

/-- The value of `accidents_penalty` that the loop of `Compute_Risk_Score` leaves
for `nb_accidents_due = n`, over exact rationals. -/
def accidents_penalty (n : Nat) : ℚ :=
  accidents_loop (n : Int) (n : Int).toNat 1 0

/-- One call of the store interface, the recompute pass included. -/
inductive Action (F : Type) where
  | insert (c : Client F) : Action F
  | remove (client_id : Int) : Action F
  | recompute : Action F

/-- Effect of one call on `g_root` and on the number of `std::rand()` calls made. -/
def apply_action [LinearOrderedField F] (exp : F → F) (rand : Nat → Nat) :
    Node F × Nat → Action F → Node F × Nat
  | (g_root, k), Action.insert c => (Insert_Client g_root c, k)
  | (g_root, k), Action.remove client_id => ((Remove_Client_By_Id g_root client_id).2, k)
  | (g_root, k), Action.recompute => Recompute_All_Scores exp rand g_root k

/-- The store (and the count of draws) after a sequence of calls from the empty store. -/
def session_after [LinearOrderedField F] (exp : F → F) (rand : Nat → Nat)
    (actions : List (Action F)) : Node F × Nat :=
  actions.foldl (apply_action exp rand) (Node.nil, 0)

/-- The validation rules of the specification, one name per rule. -/
inductive Rule where
  | client_id : Rule
  | client_age : Rule
  | car_value : Rule
  | counters : Rule
  | client_name : Rule
  | phone_number : Rule
  | address : Rule
  | policy_type : Rule

/-- Specification side: the rules in the order the specification lists them. -/
def rules_in_order : List Rule :=
  [Rule.client_id, Rule.client_age, Rule.car_value, Rule.counters, Rule.client_name,
    Rule.phone_number, Rule.address, Rule.policy_type]

/-- Specification side: whether a client satisfies a rule. -/
def Rule.holds [LE F] [Zero F] [DecidableRel (fun a b : F => a ≤ b)] (c : Client F) :
    Rule → Bool
  | Rule.client_id => decide (0 ≤ c.client_id)
  | Rule.client_age => decide (18 ≤ c.client_age)
  | Rule.car_value => decide (0 ≤ c.car_value)
  | Rule.counters =>
    decide (0 ≤ c.nb_accidents_due ∧ 0 ≤ c.nb_accidents_not_due ∧ 0 ≤ c.nb_suspensions)
  | Rule.client_name => decide (c.client_name ≠ "")
  | Rule.phone_number => decide (c.phone_number ≠ "")
  | Rule.address => decide (c.address ≠ "")
  | Rule.policy_type => decide (c.policy_type ≠ "")

/-- Specification side: the first rule, in order, that the client fails. -/
def first_failing_rule [LE F] [Zero F] [DecidableRel (fun a b : F => a ≤ b)]
    (c : Client F) : Option Rule :=
  rules_in_order.find? (fun rule => !(rule.holds c))

/-- The message the source prints for each rule. -/
def Rule.message : Rule → String
  | Rule.client_id => "Error: client_id cannot be negative.\n"
  | Rule.client_age => "Error: client_age must be >= 18.\n"
  | Rule.car_value => "Error: car_value cannot be negative.\n"
  | Rule.counters => "Error: accidents/suspensions cannot be negative.\n"
  | Rule.client_name => "Error: client_name cannot be empty.\n"
  | Rule.phone_number => "Error: phone_number cannot be empty.\n"
  | Rule.address => "Error: address cannot be empty.\n"
  | Rule.policy_type => "Error: policy_type cannot be empty.\n"

/-- Two trees have the same shape, and the records at each position are related by `R`
(first the record of the first tree, then that of the second). -/
def positionwise (R : Client F → Client F → Prop) : Node F → Node F → Prop
  | Node.nil, Node.nil => True
  | Node.node d l r, Node.node d1 l1 r1 => R d d1 ∧ positionwise R l l1 ∧ positionwise R r r1
  | Node.nil, Node.node _ _ _ => False
  | Node.node _ _ _, Node.nil => False

/-- The ten input fields of two records agree. -/
def same_inputs (old new : Client F) : Prop :=
  new.client_id = old.client_id ∧ new.client_name = old.client_name ∧
    new.client_age = old.client_age ∧ new.phone_number = old.phone_number ∧
    new.address = old.address ∧ new.policy_type = old.policy_type ∧
    new.car_value = old.car_value ∧ new.nb_accidents_due = old.nb_accidents_due ∧
    new.nb_accidents_not_due = old.nb_accidents_not_due ∧
    new.nb_suspensions = old.nb_suspensions

/-- A tree that is not id-ordered: id 0 sits in the right subtree of id 1. -/
def misordered_tree [LinearOrderedField F] : Node F :=
  Node.node (client_of_id 1) Node.nil (Node.node (client_of_id 0) Node.nil Node.nil)

/-- A record whose `car_value` is NaN, every other field being well formed. -/
def nan_client : Client (Dbl ℚ) :=
  ⟨7, "Name", 30, "0600000000", "1 Main St", "Basic", Dbl.nan, 0, 0, 0,
    Dbl.fin 0, Dbl.fin 0, Dbl.fin 0⟩

/-- A record whose `car_value` is NaN and whose `client_name` is empty. -/
def nan_nameless_client : Client (Dbl ℚ) :=
  { nan_client with client_name := "" }

/-- A record with `nb_accidents_due = INT_MAX`, every other field being well formed. -/
def overflow_client : Client ℚ :=
  { (client_of_id 7 : Client ℚ) with nb_accidents_due := 2147483647 }

end Vocabulary

/-! ## In-order traversal and the ordering invariant -/

section StoreLemmas

variable {F : Type}

@[simp] theorem Inorder_Traversal_nil : Inorder_Traversal (Node.nil : Node F) = [] := rfl

@[simp] theorem Inorder_Traversal_node (d : Client F) (l r : Node F) :
    Inorder_Traversal (Node.node d l r) = Inorder_Traversal l ++ d :: Inorder_Traversal r := rfl

@[simp] theorem ids_nil : ids (Node.nil : Node F) = [] := rfl

@[simp] theorem ids_node (d : Client F) (l r : Node F) :
    ids (Node.node d l r) = ids l ++ d.client_id :: ids r := by
  simp [ids]

theorem mem_ids {t : Node F} {k : Int} :
    k ∈ ids t ↔ ∃ c ∈ Inorder_Traversal t, c.client_id = k := by
  simp [ids]

theorem size_eq_length (t : Node F) : t.size = (Inorder_Traversal t).length := by
  induction t with
  | nil => rfl
  | node d l r ihl ihr => simp [Node.size, ihl, ihr]; omega

theorem Ordered_nil : Ordered (Node.nil : Node F) := by
  simp [Ordered]

theorem Ordered_node_iff (d : Client F) (l r : Node F) :
    Ordered (Node.node d l r) ↔
      Ordered l ∧ Ordered r ∧ (∀ k ∈ ids l, k < d.client_id) ∧ (∀ k ∈ ids r, d.client_id < k) := by
  unfold Ordered
  rw [ids_node, List.pairwise_append, List.pairwise_cons]
  constructor
  · rintro ⟨hl, ⟨hd, hr⟩, hlr⟩
    exact ⟨hl, hr, fun k hk => hlr k hk _ (List.mem_cons_self _ _), hd⟩
  · rintro ⟨hl, hr, hld, hdr⟩
    refine ⟨hl, ⟨hdr, hr⟩, ?_⟩
    intro a ha b hb
    rcases List.mem_cons.1 hb with rfl | hb
    · exact hld a ha
    · exact lt_trans (hld a ha) (hdr b hb)

theorem mem_ids_Insert_Node (t : Node F) (c : Client F) (k : Int)
    (h : k ∈ ids (Insert_Node t c)) : k = c.client_id ∨ k ∈ ids t := by
  induction t with
  | nil => simpa [Insert_Node, Create_Node] using h
  | node d l r ihl ihr =>
    unfold Insert_Node at h
    split_ifs at h with h1 h2
    · simp only [ids_node, List.mem_append, List.mem_cons] at h ⊢
      rcases h with h | h | h
      · rcases ihl h with h | h
        · exact Or.inl h
        · exact Or.inr (Or.inl h)
      · exact Or.inr (Or.inr (Or.inl h))
      · exact Or.inr (Or.inr (Or.inr h))
    · simp only [ids_node, List.mem_append, List.mem_cons] at h ⊢
      rcases h with h | h | h
      · exact Or.inr (Or.inl h)
      · exact Or.inr (Or.inr (Or.inl h))
      · rcases ihr h with h | h
        · exact Or.inl h
        · exact Or.inr (Or.inr (Or.inr h))
    · exact Or.inr h

theorem Ordered_Insert_Node (t : Node F) (c : Client F) (h : Ordered t) :
    Ordered (Insert_Node t c) := by
  induction t with
  | nil => simp [Insert_Node, Create_Node, Ordered]
  | node d l r ihl ihr =>
    obtain ⟨hl, hr, hld, hdr⟩ := (Ordered_node_iff d l r).1 h
    unfold Insert_Node
    split_ifs with h1 h2
    · refine (Ordered_node_iff _ _ _).2 ⟨ihl hl, hr, ?_, hdr⟩
      intro k hk
      rcases mem_ids_Insert_Node l c k hk with rfl | hk
      · exact h1
      · exact hld k hk
    · refine (Ordered_node_iff _ _ _).2 ⟨hl, ihr hr, hld, ?_⟩
      intro k hk
      rcases mem_ids_Insert_Node r c k hk with rfl | hk
      · exact h2
      · exact hdr k hk
    · exact h

/-! ## Equations of `Remove_Node` and `Find_Min` -/

theorem Remove_Node_lt (d : Client F) (l r : Node F) (k : Int) (h : k < d.client_id) :
    Remove_Node (Node.node d l r) k = Node.node d (Remove_Node l k) r := by
  cases l <;> cases r <;> simp [Remove_Node, h]

theorem Remove_Node_gt (d : Client F) (l r : Node F) (k : Int) (h : d.client_id < k) :
    Remove_Node (Node.node d l r) k = Node.node d l (Remove_Node r k) := by
  have h1 : ¬ k < d.client_id := not_lt.2 (le_of_lt h)
  cases l <;> cases r <;> simp [Remove_Node, h, h1]

theorem Remove_Node_leaf (d : Client F) :
    Remove_Node (Node.node d Node.nil Node.nil) d.client_id = Node.nil := by
  simp [Remove_Node]

theorem Remove_Node_right_only (d rd : Client F) (rl rr : Node F) :
    Remove_Node (Node.node d Node.nil (Node.node rd rl rr)) d.client_id = Node.node rd rl rr := by
  simp [Remove_Node]

theorem Remove_Node_left_only (d ld : Client F) (ll lr : Node F) :
    Remove_Node (Node.node d (Node.node ld ll lr) Node.nil) d.client_id = Node.node ld ll lr := by
  simp [Remove_Node]

theorem Find_Min_node (d : Client F) (l r : Node F) :
    ∃ m mr rest, Find_Min (Node.node d l r) = Node.node m Node.nil mr ∧
      Inorder_Traversal (Node.node d l r) = m :: rest := by
  induction l generalizing d r with
  | nil => exact ⟨d, r, Inorder_Traversal r, rfl, rfl⟩
  | node ld ll lr ihl _ =>
    obtain ⟨m, mr, rest, h1, h2⟩ := ihl ld lr
    refine ⟨m, mr, rest ++ d :: Inorder_Traversal r, ?_, ?_⟩
    · rw [Find_Min, h1]
    · rw [Inorder_Traversal_node, h2]; rfl

theorem Find_Min_ne_nil (d : Client F) (l r : Node F) :
    Find_Min (Node.node d l r) ≠ Node.nil := by
  obtain ⟨m, mr, rest, h, _⟩ := Find_Min_node d l r
  rw [h]; exact fun h => Node.noConfusion h

theorem Remove_Node_two (d ld rd m : Client F) (ll lr rl rr ml mr : Node F)
    (h : Find_Min (Node.node rd rl rr) = Node.node m ml mr) :
    Remove_Node (Node.node d (Node.node ld ll lr) (Node.node rd rl rr)) d.client_id =
      Node.node m (Node.node ld ll lr) (Remove_Node (Node.node rd rl rr) m.client_id) := by
  simp [Remove_Node, h]

/-! ## Removal as a filter of the in-order traversal -/

theorem id_mem_ids {t : Node F} {c : Client F} (h : c ∈ Inorder_Traversal t) :
    c.client_id ∈ ids t :=
  List.mem_map_of_mem _ h

theorem filter_ne_eq_self (L : List (Client F)) (k : Int) (h : ∀ c ∈ L, c.client_id ≠ k) :
    L.filter (fun c => decide (c.client_id ≠ k)) = L := by
  rw [List.filter_eq_self]
  intro c hc
  simpa using h c hc

theorem Inorder_Remove_Node (t : Node F) (k : Int) (h : Ordered t) :
    Inorder_Traversal (Remove_Node t k) =
      (Inorder_Traversal t).filter (fun c => decide (c.client_id ≠ k)) := by
  induction t generalizing k with
  | nil => rfl
  | node d l r ihl ihr =>
    obtain ⟨hl, hr, hld, hdr⟩ := (Ordered_node_iff d l r).1 h
    have keepL : ∀ j : Int, d.client_id ≤ j →
        (Inorder_Traversal l).filter (fun c => decide (c.client_id ≠ j)) = Inorder_Traversal l := by
      intro j hj
      apply filter_ne_eq_self
      intro c hc
      exact ne_of_lt (lt_of_lt_of_le (hld _ (id_mem_ids hc)) hj)
    have keepR : ∀ j : Int, j ≤ d.client_id →
        (Inorder_Traversal r).filter (fun c => decide (c.client_id ≠ j)) = Inorder_Traversal r := by
      intro j hj
      apply filter_ne_eq_self
      intro c hc
      exact ne_of_gt (lt_of_le_of_lt hj (hdr _ (id_mem_ids hc)))
    rcases lt_trichotomy k d.client_id with hk | hk | hk
    · rw [Remove_Node_lt d l r k hk, Inorder_Traversal_node, Inorder_Traversal_node, ihl k hl,
        List.filter_append, List.filter_cons_of_pos (by simpa using ne_of_gt hk),
        keepR k (le_of_lt hk)]
    · subst hk
      cases l with
      | nil =>
        cases r with
        | nil => simp [Remove_Node]
        | node rd rl rr =>
          rw [Remove_Node_right_only, Inorder_Traversal_node d, Inorder_Traversal_nil,
            List.nil_append, List.filter_cons_of_neg (by simp), keepR d.client_id (le_refl _)]
      | node ld ll lr =>
        cases r with
        | nil =>
          rw [Remove_Node_left_only, Inorder_Traversal_node d, Inorder_Traversal_nil,
            List.filter_append, keepL d.client_id (le_refl _),
            List.filter_cons_of_neg (by simp), List.filter_nil, List.append_nil]
        | node rd rl rr =>
          obtain ⟨m, mr, rest, hm, hrest⟩ := Find_Min_node rd rl rr
          rw [Remove_Node_two d ld rd m ll lr rl rr Node.nil mr hm, Inorder_Traversal_node,
            ihr m.client_id hr, Inorder_Traversal_node d, List.filter_append,
            keepL d.client_id (le_refl _), List.filter_cons_of_neg (by simp),
            keepR d.client_id (le_refl _), hrest, List.filter_cons_of_neg (by simp)]
          have hsorted : (m :: rest).Pairwise (fun a b => a.client_id < b.client_id) := by
            have := hr
            unfold Ordered ids at this
            rw [hrest, List.pairwise_map] at this
            exact this
          rw [filter_ne_eq_self rest m.client_id
            (fun c hc => ne_of_gt (List.rel_of_pairwise_cons hsorted hc))]
    · rw [Remove_Node_gt d l r k hk, Inorder_Traversal_node, Inorder_Traversal_node, ihr k hr,
        List.filter_append, List.filter_cons_of_pos (by simpa using ne_of_lt hk),
        keepL k (le_of_lt hk)]

theorem ids_Remove_Node (t : Node F) (k : Int) (h : Ordered t) :
    ids (Remove_Node t k) = (ids t).filter (fun j => decide (j ≠ k)) := by
  unfold ids
  rw [Inorder_Remove_Node t k h, List.filter_map]
  rfl

theorem Ordered_Remove_Node (t : Node F) (k : Int) (h : Ordered t) :
    Ordered (Remove_Node t k) := by
  unfold Ordered
  rw [ids_Remove_Node t k h]
  exact List.Pairwise.filter _ h

theorem length_filter_ne (L : List (Client F)) (k : Int)
    (hs : (L.map Client.client_id).Pairwise (fun a b => a < b))
    (hk : k ∈ L.map Client.client_id) :
    (L.filter (fun c => decide (c.client_id ≠ k))).length + 1 = L.length := by
  induction L with
  | nil => simp at hk
  | cons c L ih =>
    rw [List.map_cons, List.pairwise_cons] at hs
    by_cases hc : c.client_id = k
    · rw [List.filter_cons_of_neg (by simp [hc]), filter_ne_eq_self L k, List.length_cons]
      intro x hx
      exact ne_of_gt (hc ▸ hs.1 _ (List.mem_map_of_mem _ hx))
    · rw [List.filter_cons_of_pos (by simp [hc]), List.length_cons, List.length_cons, ih hs.2]
      rcases List.mem_cons.1 hk with h | h
      · exact absurd h.symm hc
      · exact h

theorem size_Remove_Node (t : Node F) (k : Int) (h : Ordered t) (hk : k ∈ ids t) :
    (Remove_Node t k).size + 1 = t.size := by
  rw [size_eq_length, size_eq_length, Inorder_Remove_Node t k h]
  exact length_filter_ne _ k h hk

/-! ## Search -/

theorem Search_Node_found {t : Node F} {k : Int} {d : Client F} {l r : Node F}
    (h : Search_Node t k = Node.node d l r) :
    d.client_id = k ∧ d ∈ Inorder_Traversal t := by
  induction t with
  | nil => exact Node.noConfusion h
  | node e tl tr ihl ihr =>
    unfold Search_Node at h
    split_ifs at h with h1 h2
    · injection h with hd _ _
      subst hd
      exact ⟨h1.symm, by simp⟩
    · exact ⟨(ihl h).1, by simp [(ihl h).2]⟩
    · exact ⟨(ihr h).1, by simp [(ihr h).2]⟩

theorem Search_Node_absent (t : Node F) (k : Int) (h : k ∉ ids t) :
    Search_Node t k = Node.nil := by
  cases hs : Search_Node t k with
  | nil => rfl
  | node d l r =>
    obtain ⟨h1, h2⟩ := Search_Node_found hs
    exact absurd (h1 ▸ id_mem_ids h2) h

theorem Search_Node_of_mem (t : Node F) (c : Client F) (h : Ordered t)
    (hc : c ∈ Inorder_Traversal t) :
    ∃ l r, Search_Node t c.client_id = Node.node c l r := by
  induction t with
  | nil => simp at hc
  | node d l r ihl ihr =>
    obtain ⟨hl, hr, hld, hdr⟩ := (Ordered_node_iff d l r).1 h
    rw [Inorder_Traversal_node, List.mem_append, List.mem_cons] at hc
    unfold Search_Node
    rcases hc with hc | hc | hc
    · have hlt := hld _ (id_mem_ids hc)
      rw [if_neg (ne_of_lt hlt), if_pos hlt]
      exact ihl hl hc
    · subst hc
      exact ⟨l, r, by rw [if_pos rfl]⟩
    · have hgt := hdr _ (id_mem_ids hc)
      rw [if_neg (ne_of_gt hgt), if_neg (not_lt.2 (le_of_lt hgt))]
      exact ihr hr hc

theorem Search_Node_Remove_Node (t : Node F) (k : Int) (h : Ordered t) :
    Search_Node (Remove_Node t k) k = Node.nil := by
  apply Search_Node_absent
  rw [ids_Remove_Node t k h]
  simp

theorem isNull_Search_Node_of_mem (t : Node F) (k : Int) (h : Ordered t) (hk : k ∈ ids t) :
    (Search_Node t k).isNull = false := by
  obtain ⟨c, hc, rfl⟩ := mem_ids.1 hk
  obtain ⟨l, r, hs⟩ := Search_Node_of_mem t c h hc
  rw [hs]
  rfl

/-! ## Insertion -/

theorem Insert_Node_of_mem (t : Node F) (c : Client F) (h : Ordered t)
    (hc : c.client_id ∈ ids t) : Insert_Node t c = t := by
  induction t with
  | nil => simp at hc
  | node d l r ihl ihr =>
    obtain ⟨hl, hr, hld, hdr⟩ := (Ordered_node_iff d l r).1 h
    rw [ids_node, List.mem_append, List.mem_cons] at hc
    unfold Insert_Node
    split_ifs with h1 h2
    · rcases hc with hc | hc | hc
      · rw [ihl hl hc]
      · exact absurd hc (ne_of_lt h1)
      · exact absurd (lt_trans (hdr _ hc) h1) (lt_irrefl _)
    · rcases hc with hc | hc | hc
      · exact absurd (lt_trans (hld _ hc) h2) (lt_irrefl _)
      · exact absurd hc (ne_of_gt h2)
      · rw [ihr hr hc]
    · rfl

theorem mem_Insert_Node_self (t : Node F) (c : Client F) (hc : c.client_id ∉ ids t) :
    c ∈ Inorder_Traversal (Insert_Node t c) := by
  induction t with
  | nil => simp [Insert_Node, Create_Node]
  | node d l r ihl ihr =>
    rw [ids_node, List.mem_append, List.mem_cons] at hc
    push_neg at hc
    unfold Insert_Node
    split_ifs with h1 h2
    · simp [ihl hc.1]
    · simp [ihr hc.2.2]
    · exact absurd (le_antisymm (not_lt.1 h2) (not_lt.1 h1)) hc.2.1

theorem mem_Insert_Node_old (t : Node F) (c x : Client F) (hx : x ∈ Inorder_Traversal t) :
    x ∈ Inorder_Traversal (Insert_Node t c) := by
  induction t with
  | nil => simp at hx
  | node d l r ihl ihr =>
    rw [Inorder_Traversal_node, List.mem_append, List.mem_cons] at hx
    unfold Insert_Node
    split_ifs with h1 h2
    · rw [Inorder_Traversal_node, List.mem_append, List.mem_cons]
      rcases hx with hx | hx | hx
      · exact Or.inl (ihl hx)
      · exact Or.inr (Or.inl hx)
      · exact Or.inr (Or.inr hx)
    · rw [Inorder_Traversal_node, List.mem_append, List.mem_cons]
      rcases hx with hx | hx | hx
      · exact Or.inl hx
      · exact Or.inr (Or.inl hx)
      · exact Or.inr (Or.inr (ihr hx))
    · rw [Inorder_Traversal_node, List.mem_append, List.mem_cons]
      exact hx

theorem Ordered_Remove_Client_By_Id (t : Node F) (k : Int) (h : Ordered t) :
    Ordered (Remove_Client_By_Id t k).2 := by
  unfold Remove_Client_By_Id
  split_ifs
  · exact h
  · exact Ordered_Remove_Node t k h

/-! ## Positions in the tree -/

theorem subtree_at_nil (p : List Dir) : subtree_at (Node.nil : Node F) p = Node.nil := by
  cases p <;> rfl

theorem subtree_at_root (t : Node F) : subtree_at t [] = t := by
  cases t <;> rfl

theorem subtree_at_mem (t : Node F) (p : List Dir) (s : Node F) (hp : subtree_at t p = s)
    (x : Client F) (hx : x ∈ Inorder_Traversal s) : x ∈ Inorder_Traversal t := by
  induction p generalizing t with
  | nil =>
    rw [subtree_at_root] at hp
    rw [hp]
    exact hx
  | cons dir p ih =>
    cases t with
    | nil =>
      have e : s = Node.nil := hp.symm
      rw [e] at hx
      simp at hx
    | node e tl tr =>
      cases dir with
      | left =>
        have h := ih tl hp
        simp [h]
      | right =>
        have h := ih tr hp
        simp [h]

theorem subtree_at_Ordered (t : Node F) (p : List Dir) (h : Ordered t) :
    Ordered (subtree_at t p) := by
  induction p generalizing t with
  | nil =>
    rw [subtree_at_root]
    exact h
  | cons dir p ih =>
    cases t with
    | nil => exact Ordered_nil
    | node e tl tr =>
      obtain ⟨hl, hr, _, _⟩ := (Ordered_node_iff e tl tr).1 h
      cases dir with
      | left => exact ih tl hl
      | right => exact ih tr hr

theorem subtree_at_Remove_Node (t : Node F) (p : List Dir) (d : Client F) (l r : Node F)
    (h : Ordered t) (hp : subtree_at t p = Node.node d l r) :
    subtree_at (Remove_Node t d.client_id) p = Remove_Node (Node.node d l r) d.client_id := by
  induction p generalizing t with
  | nil =>
    rw [subtree_at_root] at hp
    rw [hp, subtree_at_root]
  | cons dir p ih =>
    cases t with
    | nil => exact Node.noConfusion hp
    | node e tl tr =>
      obtain ⟨hl, hr, hld, hdr⟩ := (Ordered_node_iff e tl tr).1 h
      cases dir with
      | left =>
        have hp1 : subtree_at tl p = Node.node d l r := hp
        have hmem : d ∈ Inorder_Traversal tl := subtree_at_mem tl p _ hp1 d (by simp)
        rw [Remove_Node_lt e tl tr _ (hld _ (id_mem_ids hmem))]
        exact ih tl hl hp1
      | right =>
        have hp1 : subtree_at tr p = Node.node d l r := hp
        have hmem : d ∈ Inorder_Traversal tr := subtree_at_mem tr p _ hp1 d (by simp)
        rw [Remove_Node_gt e tl tr _ (hdr _ (id_mem_ids hmem))]
        exact ih tr hr hp1

end StoreLemmas

/-! ## Reachable stores -/

section Reachable

variable {F : Type} [LinearOrderedField F]

theorem Ordered_Insert_Client (t : Node F) (c : Client F) (h : Ordered t) :
    Ordered (Insert_Client t c) := by
  unfold Insert_Client
  split_ifs
  · exact h
  · exact Ordered_Insert_Node t c h

theorem Ordered_apply_call (t : Node F) (call : Call F) (h : Ordered t) :
    Ordered (apply_call t call) := by
  cases call with
  | insert c => exact Ordered_Insert_Client t c h
  | remove k => exact Ordered_Remove_Client_By_Id t k h

theorem Ordered_foldl (calls : List (Call F)) (t : Node F) (h : Ordered t) :
    Ordered (calls.foldl apply_call t) := by
  induction calls generalizing t with
  | nil => exact h
  | cons call calls ih => exact ih _ (Ordered_apply_call t call h)

theorem Ordered_store_after (calls : List (Call F)) : Ordered (store_after calls) :=
  Ordered_foldl calls Node.nil Ordered_nil

theorem store_after_append_one (calls : List (Call F)) (call : Call F) :
    store_after (calls ++ [call]) = apply_call (store_after calls) call := by
  simp [store_after, List.foldl_append]

/-- The scenario store of the two-children deletion: ids 50, 30, 70, 20, 40, 60, 80
inserted in that order into the empty store. -/
theorem scenario_store_eq :
    store_after scenario_calls =
      Node.node (client_of_id 50)
        (Node.node (client_of_id 30) (Node.node (client_of_id 20) Node.nil Node.nil)
          (Node.node (client_of_id 40) Node.nil Node.nil))
        (Node.node (client_of_id 70) (Node.node (client_of_id 60) Node.nil Node.nil)
          (Node.node (client_of_id 80) Node.nil Node.nil)) := by
  have hv : ∀ k : Int, 0 ≤ k → Is_Valid_Client_Data (client_of_id k : Client ℚ) = true := by
    intro k hk
    simp [Is_Valid_Client_Data, client_of_id, not_lt.2 hk]
    decide
  have hid : ∀ k : Int, (client_of_id k : Client ℚ).client_id = k := fun _ => rfl
  simp [scenario_calls, store_after, apply_call, Insert_Client, hv, Insert_Node, Create_Node, hid]

end Reachable

/-! ## The recompute pass -/

section Recompute

variable {F : Type} [LinearOrderedField F]

theorem Recompute_Recursive_node (exp : F → F) (rand : Nat → Nat) (d : Client F)
    (l r : Node F) (k : Nat) :
    Recompute_Recursive exp rand (Node.node d l r) k =
      (Node.node (Recompute_Node_Data exp (rand (Recompute_Recursive exp rand l k).2) d)
          (Recompute_Recursive exp rand l k).1
          (Recompute_Recursive exp rand r ((Recompute_Recursive exp rand l k).2 + 1)).1,
        (Recompute_Recursive exp rand r ((Recompute_Recursive exp rand l k).2 + 1)).2) := rfl

theorem Recompute_Recursive_mem (exp : F → F) (rand : Nat → Nat) (t : Node F) (k : Nat)
    (c : Client F) (hc : c ∈ Inorder_Traversal (Recompute_Recursive exp rand t k).1) :
    ∃ c0 ∈ Inorder_Traversal t, ∃ j, c = Recompute_Node_Data exp (rand j) c0 := by
  induction t generalizing k with
  | nil => simp [Recompute_Recursive] at hc
  | node d l r ihl ihr =>
    rw [Recompute_Recursive_node, Inorder_Traversal_node, List.mem_append, List.mem_cons] at hc
    rcases hc with hc | hc | hc
    · obtain ⟨c0, h0, j, hj⟩ := ihl k hc
      exact ⟨c0, by simp [h0], j, hj⟩
    · exact ⟨d, by simp, _, hc⟩
    · obtain ⟨c0, h0, j, hj⟩ := ihr _ hc
      exact ⟨c0, by simp [h0], j, hj⟩

theorem Load_Sample_Data_eq (exp : F → F) (rand : Nat → Nat) (g_root : Node F) (k : Nat) :
    Load_Sample_Data exp rand g_root k = Recompute_All_Scores exp rand sample_inserts k := rfl

theorem sample_store_eq (exp : F → F) (rand : Nat → Nat) (g_root : Node F) (k : Nat) :
    (Load_Sample_Data exp rand g_root k).1 =
      Node.node (Recompute_Node_Data exp (rand (k + 1)) sample_c1)
        (Node.node (Recompute_Node_Data exp (rand k) sample_c3) Node.nil Node.nil)
        (Node.node (Recompute_Node_Data exp (rand (k + 3)) sample_c2)
          (Node.node (Recompute_Node_Data exp (rand (k + 2)) sample_c5) Node.nil Node.nil)
          (Node.node (Recompute_Node_Data exp (rand (k + 4)) sample_c4) Node.nil Node.nil)) := by
  have v1 : Is_Valid_Client_Data (sample_c1 : Client F) = true := by
    simp [Is_Valid_Client_Data, sample_c1]; decide
  have v2 : Is_Valid_Client_Data (sample_c2 : Client F) = true := by
    simp [Is_Valid_Client_Data, sample_c2]; decide
  have v3 : Is_Valid_Client_Data (sample_c3 : Client F) = true := by
    simp [Is_Valid_Client_Data, sample_c3]; decide
  have v4 : Is_Valid_Client_Data (sample_c4 : Client F) = true := by
    simp [Is_Valid_Client_Data, sample_c4]; decide
  have v5 : Is_Valid_Client_Data (sample_c5 : Client F) = true := by
    simp [Is_Valid_Client_Data, sample_c5]; decide
  have i1 : (sample_c1 : Client F).client_id = 100 := rfl
  have i2 : (sample_c2 : Client F).client_id = 150 := rfl
  have i3 : (sample_c3 : Client F).client_id = 80 := rfl
  have i4 : (sample_c4 : Client F).client_id = 200 := rfl
  have i5 : (sample_c5 : Client F).client_id = 120 := rfl
  simp [Load_Sample_Data, Clear_Tree, Insert_Client, v1, v2, v3, v4, v5, Insert_Node,
    Create_Node, i1, i2, i3, i4, i5, Recompute_All_Scores, Recompute_Recursive_node,
    Recompute_Recursive]

theorem Compute_Trust_Score_eq_max (c : Client F) :
    Compute_Trust_Score c =
      max 0 (60 + 5 * (c.nb_accidents_not_due : F) - 15 * (c.nb_accidents_due : F)
        - 20 * (c.nb_suspensions : F)
        + (if c.policy_type = "Gold" then 12 else if c.policy_type = "Premium" then 7 else 0)
        - c.risk_score / 2) := by
  unfold Compute_Trust_Score
  simp only []
  split_ifs <;>
    first
    | exact (max_eq_left (le_of_lt ‹_›)).symm
    | exact (max_eq_right (not_lt.1 ‹_›)).symm

theorem draw_mod_bounds (r : Nat) :
    (0 : ℝ) ≤ ((r % 3 : Nat) : ℝ) ∧ ((r % 3 : Nat) : ℝ) ≤ 2 := by
  constructor
  · exact Nat.cast_nonneg _
  · have h : r % 3 ≤ 2 := by omega
    exact_mod_cast h

theorem sample_c4_risk (exp : ℝ → ℝ) (r : Nat) :
    (Recompute_Node_Data exp r sample_c4).risk_score = 1 / 2 + ((r % 3 : Nat) : ℝ) := by
  simp [Recompute_Node_Data, Compute_Risk_Score, sample_c4, accidents_loop]
  norm_num

theorem sample_c4_trust (exp : ℝ → ℝ) (r : Nat) :
    (Recompute_Node_Data exp r sample_c4).trust_score = 239 / 4 - ((r % 3 : Nat) : ℝ) / 2 := by
  obtain ⟨hq, hq2⟩ := draw_mod_bounds r
  simp [Recompute_Node_Data, Compute_Risk_Score, Compute_Trust_Score, sample_c4, accidents_loop]
  rw [if_neg (by norm_num; linarith)]
  norm_num
  ring

theorem sample_c4_premium (r : Nat) :
    (Recompute_Node_Data Real.exp r sample_c4).monthly_premium =
      40 + 20 * Real.exp ((1 / 2 + ((r % 3 : Nat) : ℝ)) / 50) := by
  have he := Real.exp_pos ((1 / 2 + ((r % 3 : Nat) : ℝ)) / 50)
  have hr : (1.0 * (5000 / 10000) + ((r % 3 : Nat) : ℝ)) = 1 / 2 + ((r % 3 : Nat) : ℝ) := by
    norm_num
  simp [Recompute_Node_Data, Compute_Risk_Score, Compute_Monthly_Premium, sample_c4,
    accidents_loop]
  rw [hr, if_neg (by norm_num; linarith)]
  norm_num
  ring

end Recompute

/-! ## Claims -/

section Claims

/-- C1: for every store obtained from the empty store by a finite sequence of
`Insert_Client` and `Remove_Client_By_Id` calls with arbitrary arguments, the
in-order traversal lists `client_id` values in strictly ascending order; in
particular no id occurs twice. -/
theorem C1_inorder_ids_strictly_ascending {F : Type} [LinearOrderedField F]
    (calls : List (Call F)) :
    ((Inorder_Traversal (store_after calls)).map Client.client_id).Pairwise (fun a b => a < b) ∧
      ((Inorder_Traversal (store_after calls)).map Client.client_id).Nodup := by
  have h : Ordered (store_after calls) := Ordered_store_after calls
  refine ⟨h, ?_⟩
  exact List.Pairwise.imp (fun hab => ne_of_lt hab) h

/-- C4: for every store reachable from empty by inserts and deletes and every id
present in it, `Remove_Client_By_Id` returns true, the number of records
decreases by exactly 1, and `Retrieve_Client_By_Id` of that id afterwards
returns null; this covers the leaf, one-child and two-children shapes alike. -/
theorem C4_remove_present {F : Type} [LinearOrderedField F] (calls : List (Call F)) (k : Int)
    (hk : k ∈ ids (store_after calls)) :
    (Remove_Client_By_Id (store_after calls) k).1 = true ∧
      (Remove_Client_By_Id (store_after calls) k).2.size + 1 = (store_after calls).size ∧
      Retrieve_Client_By_Id (Remove_Client_By_Id (store_after calls) k).2 k = Node.nil := by
  have h : Ordered (store_after calls) := Ordered_store_after calls
  have hs := isNull_Search_Node_of_mem _ k h hk
  unfold Remove_Client_By_Id Retrieve_Client_By_Id
  rw [hs]
  exact ⟨rfl, size_Remove_Node _ k h hk, Search_Node_Remove_Node _ k h⟩

/-- C4 at the scenario store: removing the leaf 20, the two-children root 50, and,
once 20 is gone, the one-child node 30. -/
theorem C4_remove_present_witness :
    ((Remove_Client_By_Id (store_after scenario_calls) 20).1 = true ∧
      (Remove_Client_By_Id (store_after scenario_calls) 20).2.size + 1 =
        (store_after scenario_calls).size ∧
      Retrieve_Client_By_Id (Remove_Client_By_Id (store_after scenario_calls) 20).2 20 =
        Node.nil) ∧
    ((Remove_Client_By_Id (store_after scenario_calls) 50).1 = true ∧
      (Remove_Client_By_Id (store_after scenario_calls) 50).2.size + 1 =
        (store_after scenario_calls).size ∧
      Retrieve_Client_By_Id (Remove_Client_By_Id (store_after scenario_calls) 50).2 50 =
        Node.nil) ∧
    ((Remove_Client_By_Id (store_after (scenario_calls ++ [Call.remove 20])) 30).1 = true ∧
      (Remove_Client_By_Id (store_after (scenario_calls ++ [Call.remove 20])) 30).2.size + 1 =
        (store_after (scenario_calls ++ [Call.remove 20])).size ∧
      Retrieve_Client_By_Id
        (Remove_Client_By_Id (store_after (scenario_calls ++ [Call.remove 20])) 30).2 30 =
        Node.nil) := by
  have h20 : (20 : Int) ∈ ids (store_after scenario_calls) := by
    rw [scenario_store_eq]; decide
  have h50 : (50 : Int) ∈ ids (store_after scenario_calls) := by
    rw [scenario_store_eq]; decide
  have h30 : (30 : Int) ∈ ids (store_after (scenario_calls ++ [Call.remove 20])) := by
    rw [store_after_append_one, scenario_store_eq]; decide
  exact ⟨C4_remove_present scenario_calls 20 h20, C4_remove_present scenario_calls 50 h50,
    C4_remove_present (scenario_calls ++ [Call.remove 20]) 30 h30⟩

/-- C5: for valid clients `c1`, `c2` with distinct ids and a reachable store
containing neither id, after `Insert_Client c1` and `Insert_Client c2` the
lookup of each id returns a node whose record is the inserted client itself
(so equal to it in every non-derived field, and in the derived ones too). -/
theorem C5_insert_two_then_retrieve {F : Type} [LinearOrderedField F] (calls : List (Call F))
    (c1 c2 : Client F)
    (hv1 : Is_Valid_Client_Data c1 = true) (hv2 : Is_Valid_Client_Data c2 = true)
    (hne : c1.client_id ≠ c2.client_id)
    (h1 : c1.client_id ∉ ids (store_after calls)) (h2 : c2.client_id ∉ ids (store_after calls)) :
    (∃ l r, Retrieve_Client_By_Id
        (Insert_Client (Insert_Client (store_after calls) c1) c2) c1.client_id =
          Node.node c1 l r) ∧
      (∃ l r, Retrieve_Client_By_Id
        (Insert_Client (Insert_Client (store_after calls) c1) c2) c2.client_id =
          Node.node c2 l r) := by
  have h : Ordered (store_after calls) := Ordered_store_after calls
  have e1 : Insert_Client (store_after calls) c1 = Insert_Node (store_after calls) c1 := by
    simp [Insert_Client, hv1]
  have e2 : ∀ t : Node F, Insert_Client t c2 = Insert_Node t c2 := by
    intro t
    simp [Insert_Client, hv2]
  rw [e2, e1]
  have ho1 : Ordered (Insert_Node (store_after calls) c1) := Ordered_Insert_Node _ c1 h
  have ho2 : Ordered (Insert_Node (Insert_Node (store_after calls) c1) c2) :=
    Ordered_Insert_Node _ c2 ho1
  have m1 : c1 ∈ Inorder_Traversal (Insert_Node (store_after calls) c1) :=
    mem_Insert_Node_self _ c1 h1
  have n2 : c2.client_id ∉ ids (Insert_Node (store_after calls) c1) := by
    intro hmem
    rcases mem_ids_Insert_Node _ c1 _ hmem with hmem | hmem
    · exact hne hmem.symm
    · exact h2 hmem
  unfold Retrieve_Client_By_Id
  exact ⟨Search_Node_of_mem _ c1 ho2 (mem_Insert_Node_old _ c2 c1 m1),
    Search_Node_of_mem _ c2 ho2 (mem_Insert_Node_self _ c2 n2)⟩

/-- C5 at the scenario store with new ids 10 and 90. -/
theorem C5_insert_two_then_retrieve_witness :
    (∃ l r, Retrieve_Client_By_Id
        (Insert_Client (Insert_Client (store_after scenario_calls) (client_of_id 10))
          (client_of_id 90)) (client_of_id 10 : Client ℚ).client_id =
          Node.node (client_of_id 10) l r) ∧
      (∃ l r, Retrieve_Client_By_Id
        (Insert_Client (Insert_Client (store_after scenario_calls) (client_of_id 10))
          (client_of_id 90)) (client_of_id 90 : Client ℚ).client_id =
          Node.node (client_of_id 90) l r) := by
  have hv : ∀ k : Int, 0 ≤ k → Is_Valid_Client_Data (client_of_id k : Client ℚ) = true := by
    intro k hk
    simp [Is_Valid_Client_Data, client_of_id, not_lt.2 hk]
    decide
  exact C5_insert_two_then_retrieve scenario_calls (client_of_id 10) (client_of_id 90)
    (hv 10 (by decide)) (hv 90 (by decide)) (by decide)
    (by rw [scenario_store_eq]; decide) (by rw [scenario_store_eq]; decide)

/-- C6: for every reachable store and every client (valid or not) whose id is
already in the store, `Insert_Client` leaves the store exactly as it was: the
tree is structurally identical, so the record count is the same and the lookup
of that id returns the same node with the same record. -/
theorem C6_insert_duplicate_noop {F : Type} [LinearOrderedField F] (calls : List (Call F))
    (c : Client F) (hc : c.client_id ∈ ids (store_after calls)) :
    Insert_Client (store_after calls) c = store_after calls ∧
      (Insert_Client (store_after calls) c).size = (store_after calls).size ∧
      Retrieve_Client_By_Id (Insert_Client (store_after calls) c) c.client_id =
        Retrieve_Client_By_Id (store_after calls) c.client_id := by
  have e : Insert_Client (store_after calls) c = store_after calls := by
    unfold Insert_Client
    split_ifs
    · rfl
    · exact Insert_Node_of_mem _ c (Ordered_store_after calls) hc
  rw [e]
  exact ⟨rfl, rfl, rfl⟩

/-- C6 at the scenario store: inserting another record with id 40. -/
theorem C6_insert_duplicate_noop_witness :
    Insert_Client (store_after scenario_calls)
        { (client_of_id 40 : Client ℚ) with client_name := "Other", car_value := 5 } =
        store_after scenario_calls ∧
      (Insert_Client (store_after scenario_calls)
        { (client_of_id 40 : Client ℚ) with client_name := "Other", car_value := 5 }).size =
        (store_after scenario_calls).size ∧
      Retrieve_Client_By_Id (Insert_Client (store_after scenario_calls)
        { (client_of_id 40 : Client ℚ) with client_name := "Other", car_value := 5 }) 40 =
        Retrieve_Client_By_Id (store_after scenario_calls) 40 :=
  C6_insert_duplicate_noop scenario_calls
    { (client_of_id 40 : Client ℚ) with client_name := "Other", car_value := 5 }
    (by rw [scenario_store_eq]; decide)

/-- C7: for every store and every client for which `Is_Valid_Client_Data` is
false, `Insert_Client` leaves the store identical: same tree, hence same
records and same size. -/
theorem C7_insert_invalid_noop {F : Type} [LinearOrderedField F] (g_root : Node F)
    (c : Client F) (hc : Is_Valid_Client_Data c = false) :
    Insert_Client g_root c = g_root ∧ (Insert_Client g_root c).size = g_root.size ∧
      Inorder_Traversal (Insert_Client g_root c) = Inorder_Traversal g_root := by
  have e : Insert_Client g_root c = g_root := by
    simp [Insert_Client, hc]
  rw [e]
  exact ⟨rfl, rfl, rfl⟩

/-- C7 at the empty store and at the scenario store, for a client aged 17. -/
theorem C7_insert_invalid_noop_witness :
    Is_Valid_Client_Data minor_client = false ∧
      (Insert_Client Node.nil minor_client = Node.nil ∧
        (Insert_Client Node.nil minor_client).size = (Node.nil : Node ℚ).size ∧
        Inorder_Traversal (Insert_Client Node.nil minor_client) =
          Inorder_Traversal Node.nil) ∧
      (Insert_Client (store_after scenario_calls) minor_client = store_after scenario_calls ∧
        (Insert_Client (store_after scenario_calls) minor_client).size =
          (store_after scenario_calls).size ∧
        Inorder_Traversal (Insert_Client (store_after scenario_calls) minor_client) =
          Inorder_Traversal (store_after scenario_calls)) := by
  have hv : Is_Valid_Client_Data minor_client = false := by
    simp [Is_Valid_Client_Data, minor_client, client_of_id]
  exact ⟨hv, C7_insert_invalid_noop Node.nil minor_client hv,
    C7_insert_invalid_noop (store_after scenario_calls) minor_client hv⟩

/-- C8: for every reachable store and every id that no record of the store has,
`Remove_Client_By_Id` returns false and the store afterwards is identical
(same tree, hence same records and same size). -/
theorem C8_remove_absent_noop {F : Type} [LinearOrderedField F] (calls : List (Call F))
    (k : Int) (hk : k ∉ ids (store_after calls)) :
    Remove_Client_By_Id (store_after calls) k = (false, store_after calls) := by
  unfold Remove_Client_By_Id
  rw [Search_Node_absent _ k hk]
  rfl

/-- C8 at the scenario store for the absent id 55. -/
theorem C8_remove_absent_noop_witness :
    Remove_Client_By_Id (store_after scenario_calls) 55 = (false, store_after scenario_calls) :=
  C8_remove_absent_noop scenario_calls 55 (by rw [scenario_store_eq]; decide)

/-- C2, evaluated on the code: after `Load_Sample_Data`, whatever the random
draws, the record of id 200 holds `monthly_premium = 40 + 20*exp(risk_score/50)`
(no trust discount, the premium having been computed while `trust_score` was
still 0), whereas the formula of the claim, read at the `risk_score` and
`trust_score` the record holds after the pass, gives
`35 + 20*exp(risk_score/50)`; the two differ by 5. -/
theorem C2_sample_premium_lacks_discount (rand : Nat → Nat) (g_root : Node ℝ) (k : Nat) :
    ∃ c ∈ Inorder_Traversal (Load_Sample_Data Real.exp rand g_root k).1,
      c.client_id = 200 ∧
      c.monthly_premium = 40 + 20 * Real.exp (c.risk_score / 50) ∧
      max 35 ((40 + 20 * Real.exp (c.risk_score / 50)
          - (if c.trust_score > 70 then 10 else if c.trust_score > 50 then 5 else 0))
          * (if c.policy_type = "Gold" then 1.2 else if c.policy_type = "Premium" then 1.1
              else 1.0)) = 35 + 20 * Real.exp (c.risk_score / 50) ∧
      c.monthly_premium ≠
        max 35 ((40 + 20 * Real.exp (c.risk_score / 50)
          - (if c.trust_score > 70 then 10 else if c.trust_score > 50 then 5 else 0))
          * (if c.policy_type = "Gold" then 1.2 else if c.policy_type = "Premium" then 1.1
              else 1.0)) := by
  obtain ⟨hq, hq2⟩ := draw_mod_bounds (rand (k + 4))
  have hrisk := sample_c4_risk Real.exp (rand (k + 4))
  have htrust := sample_c4_trust Real.exp (rand (k + 4))
  have hprem := sample_c4_premium (rand (k + 4))
  have hpol : (Recompute_Node_Data Real.exp (rand (k + 4)) sample_c4).policy_type = "Basic" := rfl
  have he := Real.exp_pos ((1 / 2 + ((rand (k + 4) % 3 : Nat) : ℝ)) / 50)
  have hclaim : max 35 ((40 + 20 * Real.exp
        ((Recompute_Node_Data Real.exp (rand (k + 4)) sample_c4).risk_score / 50)
      - (if (Recompute_Node_Data Real.exp (rand (k + 4)) sample_c4).trust_score > 70 then 10
          else if (Recompute_Node_Data Real.exp (rand (k + 4)) sample_c4).trust_score > 50
            then 5 else 0))
      * (if (Recompute_Node_Data Real.exp (rand (k + 4)) sample_c4).policy_type = "Gold"
          then 1.2
          else if (Recompute_Node_Data Real.exp (rand (k + 4)) sample_c4).policy_type = "Premium"
            then 1.1 else 1.0)) =
      35 + 20 * Real.exp
        ((Recompute_Node_Data Real.exp (rand (k + 4)) sample_c4).risk_score / 50) := by
    have hd : (if (239 / 4 - ((rand (k + 4) % 3 : Nat) : ℝ) / 2) > 70 then (10 : ℝ)
        else if (239 / 4 - ((rand (k + 4) % 3 : Nat) : ℝ) / 2) > 50 then 5 else 0) = 5 := by
      rw [if_neg (by linarith), if_pos (by linarith)]
    have hm : (if "Basic" = "Gold" then (1.2 : ℝ) else if "Basic" = "Premium" then 1.1
        else 1.0) = 1 := by
      rw [if_neg (by decide), if_neg (by decide)]
      norm_num
    rw [hrisk, htrust, hpol, hd, hm, mul_one]
    rw [max_eq_right (by linarith)]
    ring
  refine ⟨Recompute_Node_Data Real.exp (rand (k + 4)) sample_c4, ?_, rfl, ?_, hclaim, ?_⟩
  · rw [sample_store_eq]
    simp
  · rw [hprem, hrisk]
  · rw [hclaim, hprem, hrisk]
    intro h
    linarith

/-- C3: after `Recompute_All_Scores`, for every record of the store and every
outcome of the random draws, `trust_score` equals
`max(0, 60 + 5*nb_accidents_not_due - 15*nb_accidents_due - 20*nb_suspensions
+ bonus(policy_type) - risk_score/2)` with the `risk_score` the record holds
after the pass, which is the value `Compute_Risk_Score` produced for it in
that pass; bonus is 12 for "Gold", 7 for "Premium", 0 otherwise; so
`trust_score` is never negative. Doubles are read as reals. -/
theorem C3_trust_after_recompute (rand : Nat → Nat) (g_root : Node ℝ) (k : Nat)
    (c : Client ℝ)
    (hc : c ∈ Inorder_Traversal (Recompute_All_Scores Real.exp rand g_root k).1) :
    c.trust_score =
        max 0 (60 + 5 * (c.nb_accidents_not_due : ℝ) - 15 * (c.nb_accidents_due : ℝ)
          - 20 * (c.nb_suspensions : ℝ)
          + (if c.policy_type = "Gold" then 12 else if c.policy_type = "Premium" then 7 else 0)
          - c.risk_score / 2) ∧
      0 ≤ c.trust_score ∧
      ∃ c0 ∈ Inorder_Traversal g_root, ∃ j,
        c.client_id = c0.client_id ∧ c.risk_score = Compute_Risk_Score (rand j) c0 := by
  obtain ⟨c0, h0, j, hj⟩ := Recompute_Recursive_mem Real.exp rand g_root k c hc
  have ht : c.trust_score = Compute_Trust_Score c := by
    rw [hj]
    rfl
  refine ⟨?_, ?_, c0, h0, j, ?_, ?_⟩
  · rw [ht]
    exact Compute_Trust_Score_eq_max c
  · rw [ht, Compute_Trust_Score_eq_max c]
    exact le_max_left _ _
  · rw [hj]
    rfl
  · rw [hj]
    rfl

/-- C3 at the sample store with all draws 0, for the recomputed record of id 200. -/
theorem C3_trust_after_recompute_witness :
    (Recompute_Node_Data Real.exp 0 sample_c4).trust_score =
        max 0 (60 + 5 * ((Recompute_Node_Data Real.exp 0 sample_c4).nb_accidents_not_due : ℝ)
          - 15 * ((Recompute_Node_Data Real.exp 0 sample_c4).nb_accidents_due : ℝ)
          - 20 * ((Recompute_Node_Data Real.exp 0 sample_c4).nb_suspensions : ℝ)
          + (if (Recompute_Node_Data Real.exp 0 sample_c4).policy_type = "Gold" then 12
              else if (Recompute_Node_Data Real.exp 0 sample_c4).policy_type = "Premium" then 7
              else 0)
          - (Recompute_Node_Data Real.exp 0 sample_c4).risk_score / 2) ∧
      0 ≤ (Recompute_Node_Data Real.exp 0 sample_c4).trust_score ∧
      ∃ c0 ∈ Inorder_Traversal (sample_inserts : Node ℝ), ∃ j,
        (Recompute_Node_Data Real.exp 0 sample_c4).client_id = c0.client_id ∧
          (Recompute_Node_Data Real.exp 0 sample_c4).risk_score =
            Compute_Risk_Score (zero_draws j) c0 :=
  C3_trust_after_recompute zero_draws sample_inserts 0
    (Recompute_Node_Data Real.exp 0 sample_c4)
    (by
      have h := sample_store_eq Real.exp zero_draws (Node.nil : Node ℝ) 0
      rw [Load_Sample_Data_eq] at h
      rw [h]
      simp [zero_draws])

/-- C10: in an id-ordered tree, if the node at position `p` has two children,
then after `Remove_Client_By_Id` of its id (which returns true) the node at
position `p` holds the record `m` that `Find_Min` found in the former right
subtree, `m` being the minimum-id record of that subtree; its left subtree is
unchanged; its right subtree is the former one with `m` removed and no longer
contains `m` or its id; and the whole tree is still id-ordered. -/
theorem C10_two_children_removal {F : Type} [LinearOrderedField F] (t : Node F)
    (p : List Dir) (d ld rd : Client F) (ll lr rl rr : Node F) (ht : Ordered t)
    (hp : subtree_at t p = Node.node d (Node.node ld ll lr) (Node.node rd rl rr)) :
    ∃ m ml mr,
      Find_Min (Node.node rd rl rr) = Node.node m ml mr ∧
      m ∈ Inorder_Traversal (Node.node rd rl rr) ∧
      (∀ x ∈ Inorder_Traversal (Node.node rd rl rr), m.client_id ≤ x.client_id) ∧
      Remove_Client_By_Id t d.client_id = (true, Remove_Node t d.client_id) ∧
      subtree_at (Remove_Node t d.client_id) p =
        Node.node m (Node.node ld ll lr) (Remove_Node (Node.node rd rl rr) m.client_id) ∧
      m ∉ Inorder_Traversal (Remove_Node (Node.node rd rl rr) m.client_id) ∧
      m.client_id ∉ ids (Remove_Node (Node.node rd rl rr) m.client_id) ∧
      Ordered (Remove_Node t d.client_id) := by
  obtain ⟨m, mr, rest, hm, hrest⟩ := Find_Min_node rd rl rr
  have hsub : Ordered (Node.node d (Node.node ld ll lr) (Node.node rd rl rr)) := by
    rw [← hp]
    exact subtree_at_Ordered t p ht
  obtain ⟨_, hr, _, _⟩ := (Ordered_node_iff _ _ _).1 hsub
  have hsorted : (m :: rest).Pairwise (fun a b => a.client_id < b.client_id) := by
    have h := hr
    unfold Ordered ids at h
    rw [hrest, List.pairwise_map] at h
    exact h
  have hdmem : d.client_id ∈ ids t :=
    id_mem_ids (subtree_at_mem t p _ hp d (by simp))
  have hnot : m.client_id ∉ ids (Remove_Node (Node.node rd rl rr) m.client_id) := by
    rw [ids_Remove_Node _ _ hr]
    simp
  refine ⟨m, Node.nil, mr, hm, ?_, ?_, ?_, ?_, ?_, hnot, Ordered_Remove_Node t _ ht⟩
  · rw [hrest]
    exact List.mem_cons_self _ _
  · intro x hx
    rw [hrest] at hx
    rcases List.mem_cons.1 hx with rfl | hx
    · exact le_refl _
    · exact le_of_lt (List.rel_of_pairwise_cons hsorted hx)
  · unfold Remove_Client_By_Id
    rw [isNull_Search_Node_of_mem t _ ht hdmem]
    rfl
  · rw [subtree_at_Remove_Node t p d _ _ ht hp]
    exact Remove_Node_two d ld rd m ll lr rl rr Node.nil mr hm
  · exact fun hmem => hnot (id_mem_ids hmem)

/-- C10 at the scenario of the specification: ids 50, 30, 70, 20, 40, 60, 80 are
inserted in that order and 50 (the root, with two children) is removed; the
in-order ids are then 20, 30, 40, 60, 70, 80 and the root holds id 60. -/
theorem C10_two_children_removal_witness :
    (ids (Remove_Client_By_Id (store_after scenario_calls) 50).2 = [20, 30, 40, 60, 70, 80] ∧
      ∃ l r, (Remove_Client_By_Id (store_after scenario_calls) 50).2 =
        Node.node (client_of_id 60) l r) ∧
    ∃ m ml mr,
      Find_Min (Node.node (client_of_id 70 : Client ℚ)
          (Node.node (client_of_id 60) Node.nil Node.nil)
          (Node.node (client_of_id 80) Node.nil Node.nil)) = Node.node m ml mr ∧
      m ∈ Inorder_Traversal (Node.node (client_of_id 70 : Client ℚ)
          (Node.node (client_of_id 60) Node.nil Node.nil)
          (Node.node (client_of_id 80) Node.nil Node.nil)) ∧
      (∀ x ∈ Inorder_Traversal (Node.node (client_of_id 70 : Client ℚ)
          (Node.node (client_of_id 60) Node.nil Node.nil)
          (Node.node (client_of_id 80) Node.nil Node.nil)), m.client_id ≤ x.client_id) ∧
      Remove_Client_By_Id (store_after scenario_calls) (client_of_id 50 : Client ℚ).client_id =
        (true, Remove_Node (store_after scenario_calls) (client_of_id 50 : Client ℚ).client_id) ∧
      subtree_at (Remove_Node (store_after scenario_calls)
          (client_of_id 50 : Client ℚ).client_id) [] =
        Node.node m
          (Node.node (client_of_id 30) (Node.node (client_of_id 20) Node.nil Node.nil)
            (Node.node (client_of_id 40) Node.nil Node.nil))
          (Remove_Node (Node.node (client_of_id 70 : Client ℚ)
            (Node.node (client_of_id 60) Node.nil Node.nil)
            (Node.node (client_of_id 80) Node.nil Node.nil)) m.client_id) ∧
      m ∉ Inorder_Traversal (Remove_Node (Node.node (client_of_id 70 : Client ℚ)
            (Node.node (client_of_id 60) Node.nil Node.nil)
            (Node.node (client_of_id 80) Node.nil Node.nil)) m.client_id) ∧
      m.client_id ∉ ids (Remove_Node (Node.node (client_of_id 70 : Client ℚ)
            (Node.node (client_of_id 60) Node.nil Node.nil)
            (Node.node (client_of_id 80) Node.nil Node.nil)) m.client_id) ∧
      Ordered (Remove_Node (store_after scenario_calls)
        (client_of_id 50 : Client ℚ).client_id) := by
  refine ⟨⟨?_, ?_⟩, ?_⟩
  · rw [scenario_store_eq]
    decide
  · rw [scenario_store_eq]
    exact ⟨_, _, rfl⟩
  · exact C10_two_children_removal (store_after scenario_calls) [] (client_of_id 50)
      (client_of_id 30) (client_of_id 70)
      (Node.node (client_of_id 20) Node.nil Node.nil)
      (Node.node (client_of_id 40) Node.nil Node.nil)
      (Node.node (client_of_id 60) Node.nil Node.nil)
      (Node.node (client_of_id 80) Node.nil Node.nil)
      (by rw [scenario_store_eq]; unfold Ordered; decide)
      (by rw [scenario_store_eq]; rfl)

/-! ## Insertion of a list of clients -/

section InsertAll

variable {F : Type} [LinearOrderedField F]

omit [LinearOrderedField F] in
theorem Inorder_Insert_Node_perm (t : Node F) (c : Client F) (hc : c.client_id ∉ ids t) :
    (Inorder_Traversal (Insert_Node t c)).Perm (c :: Inorder_Traversal t) := by
  induction t with
  | nil => simp [Insert_Node, Create_Node]
  | node d l r ihl ihr =>
    rw [ids_node, List.mem_append, List.mem_cons] at hc
    push_neg at hc
    unfold Insert_Node
    split_ifs with h1 h2
    · rw [Inorder_Traversal_node, Inorder_Traversal_node]
      exact (ihl hc.1).append_right _
    · rw [Inorder_Traversal_node, Inorder_Traversal_node]
      have hmid : ((Inorder_Traversal l ++ [d]) ++ c :: Inorder_Traversal r).Perm
          (c :: ((Inorder_Traversal l ++ [d]) ++ Inorder_Traversal r)) := List.perm_middle
      simp only [List.append_assoc, List.singleton_append] at hmid
      exact (((ihr hc.2.2).cons d).append_left _).trans hmid
    · exact absurd (le_antisymm (not_lt.1 h2) (not_lt.1 h1)) hc.2.1

theorem Inorder_foldl_Insert_Client (cs : List (Client F)) (t : Node F)
    (hv : ∀ c ∈ cs, Is_Valid_Client_Data c = true)
    (hd : (cs.map Client.client_id).Nodup)
    (hn : ∀ c ∈ cs, c.client_id ∉ ids t) :
    (Inorder_Traversal (cs.foldl Insert_Client t)).Perm (Inorder_Traversal t ++ cs) := by
  induction cs generalizing t with
  | nil => simp
  | cons c cs ih =>
    rw [List.map_cons, List.nodup_cons] at hd
    have hvc : Is_Valid_Client_Data c = true := hv c (List.mem_cons_self _ _)
    have e : Insert_Client t c = Insert_Node t c := by
      simp [Insert_Client, hvc]
    have hct : c.client_id ∉ ids t := hn c (List.mem_cons_self _ _)
    rw [List.foldl_cons, e]
    have hn1 : ∀ x ∈ cs, x.client_id ∉ ids (Insert_Node t c) := by
      intro x hx hmem
      rcases mem_ids_Insert_Node t c _ hmem with h | h
      · exact hd.1 (h ▸ List.mem_map_of_mem _ hx)
      · exact hn x (List.mem_cons_of_mem _ hx) h
    refine (ih (Insert_Node t c) (fun x hx => hv x (List.mem_cons_of_mem _ hx)) hd.2 hn1).trans ?_
    refine ((Inorder_Insert_Node_perm t c hct).append_right cs).trans ?_
    exact List.perm_middle.symm

theorem Ordered_foldl_Insert_Client (cs : List (Client F)) (t : Node F) (h : Ordered t) :
    Ordered (cs.foldl Insert_Client t) := by
  induction cs generalizing t with
  | nil => exact h
  | cons c cs ih => exact ih _ (Ordered_Insert_Client t c h)

theorem sample_clients_valid (c : Client F) (hc : c ∈ (sample_clients : List (Client F))) :
    Is_Valid_Client_Data c = true := by
  simp only [sample_clients, List.mem_cons, List.mem_singleton, List.not_mem_nil, or_false] at hc
  rcases hc with rfl | rfl | rfl | rfl | rfl
  · simp [Is_Valid_Client_Data, sample_c1]; decide
  · simp [Is_Valid_Client_Data, sample_c2]; decide
  · simp [Is_Valid_Client_Data, sample_c3]; decide
  · simp [Is_Valid_Client_Data, sample_c4]; decide
  · simp [Is_Valid_Client_Data, sample_c5]; decide

theorem sample_inserts_eq :
    (insert_all sample_clients : Node F) =
      Node.node sample_c1 (Node.node sample_c3 Node.nil Node.nil)
        (Node.node sample_c2 (Node.node sample_c5 Node.nil Node.nil)
          (Node.node sample_c4 Node.nil Node.nil)) := by
  have v : ∀ c ∈ (sample_clients : List (Client F)), Is_Valid_Client_Data c = true :=
    sample_clients_valid
  simp only [sample_clients, List.mem_cons, List.mem_singleton, List.not_mem_nil, or_false,
    forall_eq_or_imp, forall_eq] at v
  obtain ⟨v1, v2, v3, v4, v5⟩ := v
  have i1 : (sample_c1 : Client F).client_id = 100 := rfl
  have i2 : (sample_c2 : Client F).client_id = 150 := rfl
  have i3 : (sample_c3 : Client F).client_id = 80 := rfl
  have i4 : (sample_c4 : Client F).client_id = 200 := rfl
  have i5 : (sample_c5 : Client F).client_id = 120 := rfl
  simp [insert_all, sample_clients, Insert_Client, v1, v2, v3, v4, v5, Insert_Node,
    Create_Node, i1, i2, i3, i4, i5]

end InsertAll

/-- C11: for every finite list of valid clients with pairwise distinct ids,
given in any order, inserting them one by one into the empty store yields a
store whose in-order traversal is a permutation of the list (exactly those
clients, each exactly once) with strictly ascending ids, that is, the
id-sorted permutation of the inserted list. -/
theorem C11_insert_all_sorted_perm {F : Type} [LinearOrderedField F] (cs : List (Client F))
    (hv : ∀ c ∈ cs, Is_Valid_Client_Data c = true)
    (hd : (cs.map Client.client_id).Nodup) :
    (Inorder_Traversal (insert_all cs)).Perm cs ∧
      ((Inorder_Traversal (insert_all cs)).map Client.client_id).Pairwise
        (fun a b => a < b) := by
  constructor
  · have h := Inorder_foldl_Insert_Client cs Node.nil hv hd (by simp)
    simpa [insert_all] using h
  · exact Ordered_foldl_Insert_Client cs Node.nil Ordered_nil

/-- C11 at the sample set: ids 100, 150, 80, 200, 120 inserted in that order
give the traversal ids 80, 100, 120, 150, 200. -/
theorem C11_insert_all_sorted_perm_witness :
    ((Inorder_Traversal (insert_all (sample_clients : List (Client ℚ)))).map Client.client_id =
        [80, 100, 120, 150, 200] ∧
      (sample_clients : List (Client ℚ)).map Client.client_id = [100, 150, 80, 200, 120]) ∧
    ((Inorder_Traversal (insert_all (sample_clients : List (Client ℚ)))).Perm sample_clients ∧
      ((Inorder_Traversal (insert_all (sample_clients : List (Client ℚ)))).map
        Client.client_id).Pairwise (fun a b => a < b)) := by
  refine ⟨⟨?_, rfl⟩, C11_insert_all_sorted_perm sample_clients sample_clients_valid (by decide)⟩
  rw [sample_inserts_eq]
  rfl

/-! ## The accident loop -/

section AccidentLoop

variable {F : Type} [LinearOrderedField F]

theorem accidents_loop_eq_sum (n : Int) (fuel : Nat) (i : Int) (acc : F)
    (h : i + fuel ≤ n + 1) :
    accidents_loop n fuel i acc =
      acc + ∑ j in Finset.range fuel, (10 : F) / (((i + (j : Int) : Int)) : F) := by
  induction fuel generalizing i acc with
  | zero => simp [accidents_loop]
  | succ fuel ih =>
    have hi : i ≤ n := by push_cast at h; omega
    rw [accidents_loop, if_pos hi, ih (i + 1) _ (by push_cast at h ⊢; omega),
      Finset.sum_range_succ']
    have e : ∀ j : Nat, ((i + 1 + (j : Int) : Int) : F) = ((i + ((j + 1 : Nat) : Int) : Int) : F) := by
      intro j
      push_cast
      ring
    simp only [e]
    simp only [Nat.cast_zero, add_zero]
    ring

theorem accidents_loop_eq_Icc (n : Int) :
    accidents_loop n n.toNat 1 (0 : F) = ∑ i in Finset.Icc (1 : Int) n, (10 : F) / (i : F) := by
  by_cases hn : n < 0
  · have e : n.toNat = 0 := by omega
    rw [e, Finset.Icc_eq_empty (by omega), Finset.sum_empty]
    rfl
  · rw [accidents_loop_eq_sum n n.toNat 1 0 (by omega), zero_add, Int.Icc_eq_finset_map,
      Finset.sum_map]
    have e : (n + 1 - 1).toNat = n.toNat := by
      congr 1
      omega
    rw [e]
    rfl

theorem accidents_penalty_eq_sum (n : Nat) :
    accidents_penalty n = ∑ j in Finset.range n, (10 : ℚ) / ((j : ℚ) + 1) := by
  unfold accidents_penalty
  rw [accidents_loop_eq_sum (n : Int) _ 1 0 (by omega), zero_add, Int.toNat_ofNat]
  apply Finset.sum_congr rfl
  intro j _
  push_cast
  ring

end AccidentLoop

/-- With the unbounded loop counter, `Compute_Risk_Score` equals
`age_factor * (car_value / 10000) + (sum over i = 1..nb_accidents_due of 10/i)
+ 3 * nb_suspensions + r` with `r = v % 3`; the sum is empty when
`nb_accidents_due <= 0`. -/
theorem Compute_Risk_Score_eq_formula {F : Type} [LinearOrderedField F] (c : Client F) (v : Nat) :
    Compute_Risk_Score v c =
        (if c.client_age < 25 then (1.5 : F)
          else if 25 ≤ c.client_age ∧ c.client_age < 35 then 1.2 else 1.0)
          * (c.car_value / 10000)
        + (∑ i in Finset.Icc (1 : Int) c.nb_accidents_due, (10 : F) / (i : F))
        + 3 * (c.nb_suspensions : F) + ((v % 3 : Nat) : F) ∧
      v % 3 < 3 ∧
      (c.nb_accidents_due ≤ 0 →
        (∑ i in Finset.Icc (1 : Int) c.nb_accidents_due, (10 : F) / (i : F)) = 0) := by
  refine ⟨?_, Nat.mod_lt _ (by decide), ?_⟩
  · unfold Compute_Risk_Score
    simp only []
    rw [accidents_loop_eq_Icc]
    congr 3
    split_ifs with h1 h2 h3 h3
    · rfl
    · rfl
    · exact absurd ⟨not_lt.1 h1, h2⟩ h3
    · exact absurd h3.2 h2
    · rfl
  · intro h0
    rw [Finset.Icc_eq_empty (by omega), Finset.sum_empty]

/-- C17: the at-fault accident penalty `P(n)` that the loop of
`Compute_Risk_Score` computes satisfies, over exact rationals,
`P(n+1) - P(n) = 10/(n+1) > 0` for every `n >= 0`, and the increment from
`n+1` to `n+2` is strictly smaller than the one from `n` to `n+1` (that is,
`P(m+1) - P(m) < P(m) - P(m-1)` for every `m = n+1 >= 1`); so `P` is strictly
increasing with strictly diminishing increments. -/
theorem C17_diminishing_accident_penalty (n : Nat) :
    accidents_penalty (n + 1) - accidents_penalty n = 10 / ((n : ℚ) + 1) ∧
      0 < accidents_penalty (n + 1) - accidents_penalty n ∧
      accidents_penalty (n + 2) - accidents_penalty (n + 1) <
        accidents_penalty (n + 1) - accidents_penalty n ∧
      accidents_penalty n < accidents_penalty (n + 1) ∧
      StrictMono accidents_penalty := by
  have step : ∀ m : Nat, accidents_penalty (m + 1) - accidents_penalty m = 10 / ((m : ℚ) + 1) := by
    intro m
    rw [accidents_penalty_eq_sum, accidents_penalty_eq_sum, Finset.sum_range_succ]
    ring
  have pos : ∀ m : Nat, (0 : ℚ) < 10 / ((m : ℚ) + 1) := by
    intro m
    positivity
  refine ⟨step n, ?_, ?_, ?_, ?_⟩
  · rw [step n]
    exact pos n
  · rw [step n, step (n + 1)]
    push_cast
    apply div_lt_div_of_pos_left (by norm_num) (by positivity)
    linarith
  · have h := pos n
    rw [← step n] at h
    linarith
  · apply strictMono_nat_of_lt_succ
    intro m
    have h := pos m
    rw [← step m] at h
    linarith

theorem floor_at_eq_max {F : Type} [LinearOrderedField F] (a x : F) :
    (if x < a then a else x) = max a x := by
  split_ifs with h
  · exact (max_eq_left (le_of_lt h)).symm
  · exact (max_eq_right (not_lt.1 h)).symm

/-- C13: for every client (any `risk_score`, `trust_score` and `policy_type`),
`Compute_Monthly_Premium` equals `max(35, (40 + 20*exp(risk_score/50) - d) * m)`
with `d` = 10 if `trust_score > 70`, 5 if `50 < trust_score <= 70`, 0 otherwise,
and `m` = 1.2 for exactly "Gold", 1.1 for exactly "Premium", 1.0 for any other
string; hence the result is never below 35. Doubles are read as real numbers. -/
theorem C13_premium_formula (c : Client ℝ) :
    Compute_Monthly_Premium Real.exp c =
        max 35 ((40 + 20 * Real.exp (c.risk_score / 50)
          - (if c.trust_score > 70 then 10
              else if 50 < c.trust_score ∧ c.trust_score ≤ 70 then 5 else 0))
          * (if c.policy_type = "Gold" then 1.2 else if c.policy_type = "Premium" then 1.1
              else 1.0)) ∧
      35 ≤ Compute_Monthly_Premium Real.exp c := by
  have hd : (if c.trust_score > 70 then (10 : ℝ) else (if c.trust_score > 50 then 5 else 0)) =
      (if c.trust_score > 70 then 10
        else if 50 < c.trust_score ∧ c.trust_score ≤ 70 then 5 else 0) := by
    split_ifs with h1 h2 h3 h3
    · rfl
    · rfl
    · exact absurd ⟨h2, not_lt.1 h1⟩ h3
    · exact absurd h3.1 h2
    · rfl
  have hm : (if c.policy_type = "Premium" then (1.1 : ℝ)
        else if c.policy_type = "Gold" then 1.2 else 1.0) =
      (if c.policy_type = "Gold" then 1.2 else if c.policy_type = "Premium" then 1.1
        else 1.0) := by
    split_ifs with h1 h2
    · rw [h1] at h2
      exact absurd h2 (by decide)
    · rfl
    · rfl
    · rfl
  have e : Compute_Monthly_Premium Real.exp c =
      max 35 ((40 + 20 * Real.exp (c.risk_score / 50)
        - (if c.trust_score > 70 then 10
            else if 50 < c.trust_score ∧ c.trust_score ≤ 70 then 5 else 0))
        * (if c.policy_type = "Gold" then 1.2 else if c.policy_type = "Premium" then 1.1
            else 1.0)) := by
    unfold Compute_Monthly_Premium
    simp only []
    rw [hd, hm, mul_comm (Real.exp (c.risk_score / 50)) 20]
    exact floor_at_eq_max 35 _
  refine ⟨e, ?_⟩
  rw [e]
  exact le_max_left _ _

/-! ## Validity of stored records -/

section Validity

variable {F : Type} [LinearOrderedField F]

omit [LinearOrderedField F] in
theorem mem_Inorder_Insert_Node (t : Node F) (c x : Client F)
    (hx : x ∈ Inorder_Traversal (Insert_Node t c)) : x = c ∨ x ∈ Inorder_Traversal t := by
  induction t with
  | nil => simpa [Insert_Node, Create_Node] using hx
  | node d l r ihl ihr =>
    unfold Insert_Node at hx
    split_ifs at hx with h1 h2
    · rw [Inorder_Traversal_node, List.mem_append, List.mem_cons] at hx ⊢
      rcases hx with h | h | h
      · rcases ihl h with h | h
        · exact Or.inl h
        · exact Or.inr (Or.inl h)
      · exact Or.inr (Or.inr (Or.inl h))
      · exact Or.inr (Or.inr (Or.inr h))
    · rw [Inorder_Traversal_node, List.mem_append, List.mem_cons] at hx ⊢
      rcases hx with h | h | h
      · exact Or.inr (Or.inl h)
      · exact Or.inr (Or.inr (Or.inl h))
      · rcases ihr h with h | h
        · exact Or.inl h
        · exact Or.inr (Or.inr (Or.inr h))
    · exact Or.inr hx

omit [LinearOrderedField F] in
theorem mem_Inorder_Remove_Node (t : Node F) (k : Int) (x : Client F)
    (hx : x ∈ Inorder_Traversal (Remove_Node t k)) : x ∈ Inorder_Traversal t := by
  induction t generalizing k with
  | nil => exact hx
  | node d l r ihl ihr =>
    rcases lt_trichotomy k d.client_id with hk | hk | hk
    · rw [Remove_Node_lt d l r k hk, Inorder_Traversal_node, List.mem_append,
        List.mem_cons] at hx
      rw [Inorder_Traversal_node, List.mem_append, List.mem_cons]
      rcases hx with h | h | h
      · exact Or.inl (ihl k h)
      · exact Or.inr (Or.inl h)
      · exact Or.inr (Or.inr h)
    · subst hk
      cases l with
      | nil =>
        cases r with
        | nil => simp [Remove_Node] at hx
        | node rd rl rr =>
          rw [Remove_Node_right_only] at hx
          rw [Inorder_Traversal_node d]
          exact List.mem_append_right _ (List.mem_cons_of_mem _ hx)
      | node ld ll lr =>
        cases r with
        | nil =>
          rw [Remove_Node_left_only] at hx
          rw [Inorder_Traversal_node d]
          exact List.mem_append_left _ hx
        | node rd rl rr =>
          obtain ⟨m, mr, rest, hm, hrest⟩ := Find_Min_node rd rl rr
          rw [Remove_Node_two d ld rd m ll lr rl rr Node.nil mr hm, Inorder_Traversal_node,
            List.mem_append, List.mem_cons] at hx
          rw [Inorder_Traversal_node d, List.mem_append, List.mem_cons]
          rcases hx with h | h | h
          · exact Or.inl h
          · refine Or.inr (Or.inr ?_)
            rw [h, hrest]
            exact List.mem_cons_self _ _
          · exact Or.inr (Or.inr (ihr _ h))
    · rw [Remove_Node_gt d l r k hk, Inorder_Traversal_node, List.mem_append,
        List.mem_cons] at hx
      rw [Inorder_Traversal_node, List.mem_append, List.mem_cons]
      rcases hx with h | h | h
      · exact Or.inl h
      · exact Or.inr (Or.inl h)
      · exact Or.inr (Or.inr (ihr k h))

theorem Is_Valid_Client_Data_Recompute_Node_Data (exp : F → F) (r : Nat) (c : Client F) :
    Is_Valid_Client_Data (Recompute_Node_Data exp r c) = Is_Valid_Client_Data c := rfl

theorem Is_Valid_Client_Data_iff_rules (c : Client F) :
    Is_Valid_Client_Data c = true ↔
      0 ≤ c.client_id ∧ 18 ≤ c.client_age ∧ 0 ≤ c.car_value ∧
      0 ≤ c.nb_accidents_due ∧ 0 ≤ c.nb_accidents_not_due ∧ 0 ≤ c.nb_suspensions ∧
      c.client_name ≠ "" ∧ c.phone_number ≠ "" ∧ c.address ≠ "" ∧ c.policy_type ≠ "" := by
  unfold Is_Valid_Client_Data
  simp only [String.isEmpty_iff]
  split_ifs <;> simp_all
  omega

theorem valid_apply_action (exp : F → F) (rand : Nat → Nat) (st : Node F × Nat)
    (a : Action F) (h : ∀ c ∈ Inorder_Traversal st.1, Is_Valid_Client_Data c = true) :
    ∀ c ∈ Inorder_Traversal (apply_action exp rand st a).1, Is_Valid_Client_Data c = true := by
  obtain ⟨g, k⟩ := st
  intro c hc
  cases a with
  | insert c0 =>
    simp only [apply_action, Insert_Client] at hc
    by_cases hv : Is_Valid_Client_Data c0 = true
    · rw [hv] at hc
      rcases mem_Inorder_Insert_Node g c0 c hc with h1 | h1
      · rw [h1]; exact hv
      · exact h c h1
    · rw [Bool.not_eq_true] at hv
      rw [hv] at hc
      exact h c hc
  | remove j =>
    simp only [apply_action, Remove_Client_By_Id] at hc
    split_ifs at hc
    · exact h c hc
    · exact h c (mem_Inorder_Remove_Node g j c hc)
  | recompute =>
    simp only [apply_action, Recompute_All_Scores] at hc
    obtain ⟨c0, h0, j, hj⟩ := Recompute_Recursive_mem exp rand g k c hc
    rw [hj, Is_Valid_Client_Data_Recompute_Node_Data]
    exact h c0 h0

theorem valid_foldl_apply_action (exp : F → F) (rand : Nat → Nat) (actions : List (Action F))
    (st : Node F × Nat) (h : ∀ c ∈ Inorder_Traversal st.1, Is_Valid_Client_Data c = true) :
    ∀ c ∈ Inorder_Traversal (actions.foldl (apply_action exp rand) st).1,
      Is_Valid_Client_Data c = true := by
  induction actions generalizing st with
  | nil => exact h
  | cons a actions ih => exact ih _ (valid_apply_action exp rand st a h)

end Validity

theorem client_of_id_valid {F : Type} [LinearOrderedField F] (k : Int) (hk : 0 ≤ k) :
    Is_Valid_Client_Data (client_of_id k : Client F) = true := by
  simp [Is_Valid_Client_Data, client_of_id, not_lt.2 hk]
  decide

theorem first_failing_rule_eq {F : Type} [LinearOrderedField F] (c : Client F) :
    first_failing_rule c =
      if c.client_id < 0 then some Rule.client_id
      else if c.client_age < 18 then some Rule.client_age
      else if c.car_value < 0 then some Rule.car_value
      else if c.nb_accidents_due < 0 ∨ c.nb_accidents_not_due < 0 ∨ c.nb_suspensions < 0 then
        some Rule.counters
      else if c.client_name.isEmpty then some Rule.client_name
      else if c.phone_number.isEmpty then some Rule.phone_number
      else if c.address.isEmpty then some Rule.address
      else if c.policy_type.isEmpty then some Rule.policy_type
      else none := by
  simp only [String.isEmpty_iff]
  by_cases h1 : c.client_id < 0
  · simp [first_failing_rule, rules_in_order, List.find?, Rule.holds, h1, not_le.2 h1]
  by_cases h2 : c.client_age < 18
  · simp [first_failing_rule, rules_in_order, List.find?, Rule.holds, h1, h2, not_lt.1 h1,
      not_le.2 h2]
  by_cases h3 : c.car_value < 0
  · simp [first_failing_rule, rules_in_order, List.find?, Rule.holds, h1, h2, h3,
      not_lt.1 h1, not_lt.1 h2, not_le.2 h3]
  by_cases h4 : c.nb_accidents_due < 0 ∨ c.nb_accidents_not_due < 0 ∨ c.nb_suspensions < 0
  · have h4a : ¬ (0 ≤ c.nb_accidents_due ∧ 0 ≤ c.nb_accidents_not_due ∧
        0 ≤ c.nb_suspensions) := by omega
    simp [first_failing_rule, rules_in_order, List.find?, Rule.holds, h1, h2, h3, h4, h4a,
      not_lt.1 h1, not_lt.1 h2, not_lt.1 h3]
  have h4b : 0 ≤ c.nb_accidents_due ∧ 0 ≤ c.nb_accidents_not_due ∧ 0 ≤ c.nb_suspensions := by
    omega
  by_cases h5 : c.client_name = ""
  · simp [first_failing_rule, rules_in_order, List.find?, Rule.holds, h1, h2, h3, h4, h4b, h5,
      not_lt.1 h1, not_lt.1 h2, not_lt.1 h3]
  by_cases h6 : c.phone_number = ""
  · simp [first_failing_rule, rules_in_order, List.find?, Rule.holds, h1, h2, h3, h4, h4b, h5,
      h6, not_lt.1 h1, not_lt.1 h2, not_lt.1 h3]
  by_cases h7 : c.address = ""
  · simp [first_failing_rule, rules_in_order, List.find?, Rule.holds, h1, h2, h3, h4, h4b, h5,
      h6, h7, not_lt.1 h1, not_lt.1 h2, not_lt.1 h3]
  by_cases h8 : c.policy_type = ""
  · simp [first_failing_rule, rules_in_order, List.find?, Rule.holds, h1, h2, h3, h4, h4b, h5,
      h6, h7, h8, not_lt.1 h1, not_lt.1 h2, not_lt.1 h3]
  simp [first_failing_rule, rules_in_order, List.find?, Rule.holds, h1, h2, h3, h4, h4b, h5,
    h6, h7, h8, not_lt.1 h1, not_lt.1 h2, not_lt.1 h3]

theorem Is_Valid_Client_Data_out_eq {F : Type} [LinearOrderedField F] (c : Client F) :
    Is_Valid_Client_Data_out c =
      (((first_failing_rule c).map Rule.message).toList, (first_failing_rule c).isNone) := by
  rw [first_failing_rule_eq]
  unfold Is_Valid_Client_Data_out
  split_ifs <;> rfl

theorem Is_Valid_Client_Data_out_snd {F : Type} [LinearOrderedField F] (c : Client F) :
    (Is_Valid_Client_Data_out c).2 = Is_Valid_Client_Data c := by
  unfold Is_Valid_Client_Data_out Is_Valid_Client_Data
  split_ifs <;> rfl

theorem Rule.message_injective : Function.Injective Rule.message := by
  intro a b h
  cases a <;> cases b <;> first | rfl | exact absurd h (by decide)

/-! ## Frame of the recompute pass -/

section RecomputeFrame

variable {F : Type} [LinearOrderedField F]

omit [LinearOrderedField F] in
theorem positionwise_imp {R S : Client F → Client F → Prop} (hRS : ∀ a b, R a b → S a b)
    (t u : Node F) (h : positionwise R t u) : positionwise S t u := by
  induction t generalizing u with
  | nil =>
    cases u with
    | nil => exact h
    | node d1 l1 r1 => exact h
  | node d l r ihl ihr =>
    cases u with
    | nil => exact h
    | node d1 l1 r1 =>
      obtain ⟨h1, h2, h3⟩ := h
      exact ⟨hRS _ _ h1, ihl l1 h2, ihr r1 h3⟩

omit [LinearOrderedField F] in
theorem positionwise_Inorder {R : Client F → Client F → Prop} (t u : Node F)
    (h : positionwise R t u) :
    List.Forall₂ R (Inorder_Traversal t) (Inorder_Traversal u) := by
  induction t generalizing u with
  | nil =>
    cases u with
    | nil => exact List.Forall₂.nil
    | node d1 l1 r1 => exact False.elim h
  | node d l r ihl ihr =>
    cases u with
    | nil => exact False.elim h
    | node d1 l1 r1 =>
      obtain ⟨h1, h2, h3⟩ := h
      rw [Inorder_Traversal_node, Inorder_Traversal_node]
      exact List.rel_append (ihl l1 h2) (List.Forall₂.cons h1 (ihr r1 h3))

omit [LinearOrderedField F] in
theorem positionwise_size {R : Client F → Client F → Prop} (t u : Node F)
    (h : positionwise R t u) : u.size = t.size := by
  rw [size_eq_length, size_eq_length]
  exact (positionwise_Inorder t u h).length_eq.symm

theorem Recompute_Recursive_count (exp : F → F) (rand : Nat → Nat) (t : Node F) (k : Nat) :
    (Recompute_Recursive exp rand t k).2 = k + t.size := by
  induction t generalizing k with
  | nil => rfl
  | node d l r ihl ihr =>
    rw [Recompute_Recursive_node]
    simp only [Node.size]
    rw [ihr, ihl]
    omega

theorem Recompute_Recursive_positionwise (exp : F → F) (rand : Nat → Nat) (t : Node F)
    (k : Nat) :
    positionwise
      (fun old new => ∃ j, k ≤ j ∧ j < k + t.size ∧ new = Recompute_Node_Data exp (rand j) old)
      t (Recompute_Recursive exp rand t k).1 := by
  induction t generalizing k with
  | nil => exact True.intro
  | node d l r ihl ihr =>
    rw [Recompute_Recursive_node]
    refine ⟨?_, ?_, ?_⟩
    · refine ⟨(Recompute_Recursive exp rand l k).2, ?_, ?_, rfl⟩
      · rw [Recompute_Recursive_count]; omega
      · rw [Recompute_Recursive_count]; simp only [Node.size]; omega
    · refine positionwise_imp ?_ _ _ (ihl k)
      rintro a b ⟨j, h1, h2, h3⟩
      exact ⟨j, h1, by simp only [Node.size]; omega, h3⟩
    · refine positionwise_imp ?_ _ _ (ihr ((Recompute_Recursive exp rand l k).2 + 1))
      rintro a b ⟨j, h1, h2, h3⟩
      rw [Recompute_Recursive_count] at h1 h2
      exact ⟨j, by omega, by simp only [Node.size]; omega, h3⟩

theorem Recompute_Node_Data_same_inputs (exp : F → F) (r : Nat) (c : Client F) :
    same_inputs c (Recompute_Node_Data exp r c) :=
  ⟨rfl, rfl, rfl, rfl, rfl, rfl, rfl, rfl, rfl, rfl⟩

theorem Recompute_Node_Data_trust (exp : F → F) (r : Nat) (c : Client F) :
    (Recompute_Node_Data exp r c).trust_score =
      Compute_Trust_Score { c with risk_score := Compute_Risk_Score r c } := rfl

theorem Compute_Monthly_Premium_trust_zero (exp : F → F) (c : Client F)
    (h : c.trust_score = 0) :
    Compute_Monthly_Premium exp c =
      max 35 ((40 + 20 * exp (c.risk_score / 50))
        * (if c.policy_type = "Premium" then 1.1
            else if c.policy_type = "Gold" then 1.2 else 1.0)) := by
  have hd : (if c.trust_score > 70 then (10 : F) else (if c.trust_score > 50 then 5 else 0)) =
      0 := by
    rw [h, if_neg (by norm_num), if_neg (by norm_num)]
  unfold Compute_Monthly_Premium
  simp only []
  rw [hd, sub_zero, mul_comm (exp (c.risk_score / 50)) 20]
  exact floor_at_eq_max 35 _

end RecomputeFrame

/-- C16: `Recompute_All_Scores` changes nothing but the three derived fields.
For every store and every outcome of the draws, the tree after the pass has the
same shape, and at every position the new record has the same ten input fields
as the old one while its `risk_score`, `monthly_premium` and `trust_score` are
the freshly computed values (one draw per record, taken among the draws of
this pass); hence the number of records and the in-order ids are unchanged, and
the pass makes exactly one draw per record. -/
theorem C16_recompute_frame {F : Type} [LinearOrderedField F] (exp : F → F) (rand : Nat → Nat)
    (g_root : Node F) (k : Nat) :
    positionwise
        (fun old new => same_inputs old new ∧
          ∃ j, k ≤ j ∧ j < k + g_root.size ∧
            new.risk_score = Compute_Risk_Score (rand j) old ∧
            new.monthly_premium =
              Compute_Monthly_Premium exp { old with risk_score := new.risk_score } ∧
            new.trust_score = Compute_Trust_Score { old with risk_score := new.risk_score })
        g_root (Recompute_All_Scores exp rand g_root k).1 ∧
      (Recompute_All_Scores exp rand g_root k).1.size = g_root.size ∧
      ids (Recompute_All_Scores exp rand g_root k).1 = ids g_root ∧
      (Recompute_All_Scores exp rand g_root k).2 = k + g_root.size := by
  have hpos := Recompute_Recursive_positionwise exp rand g_root k
  unfold Recompute_All_Scores
  refine ⟨?_, positionwise_size _ _ hpos, ?_, Recompute_Recursive_count exp rand g_root k⟩
  · refine positionwise_imp ?_ _ _ hpos
    rintro a b ⟨j, h1, h2, h3⟩
    rw [h3]
    exact ⟨Recompute_Node_Data_same_inputs exp (rand j) a, j, h1, h2, rfl, rfl, rfl⟩
  · have hf := positionwise_Inorder _ _ hpos
    unfold ids
    generalize Inorder_Traversal g_root = xs at hf
    generalize Inorder_Traversal (Recompute_Recursive exp rand g_root k).1 = ys at hf
    induction hf with
    | nil => rfl
    | cons hab _ ih =>
      obtain ⟨j, _, _, hj⟩ := hab
      rw [List.map_cons, List.map_cons, ih, hj]
      rfl

/-- C18: in `Recompute_All_Scores` the premium written to each record is
`Compute_Monthly_Premium` of the record holding the newly written `risk_score`
and the `trust_score` from before the pass. Hence, when that `trust_score` was 0,
the premium written is `max(35, (40 + 20*exp(risk_score/50)) * multiplier)`:
no trust discount, whatever `trust_score` the pass then stores. -/
theorem C18_premium_reads_old_trust {F : Type} [LinearOrderedField F] (exp : F → F)
    (rand : Nat → Nat) (g_root : Node F) (k : Nat) :
    positionwise
      (fun old new =>
        (∃ j, new.risk_score = Compute_Risk_Score (rand j) old) ∧
        new.monthly_premium =
          Compute_Monthly_Premium exp
            { old with risk_score := new.risk_score, trust_score := old.trust_score } ∧
        (old.trust_score = 0 →
          new.monthly_premium =
            max 35 ((40 + 20 * exp (new.risk_score / 50))
              * (if old.policy_type = "Premium" then 1.1
                  else if old.policy_type = "Gold" then 1.2 else 1.0))))
      g_root (Recompute_All_Scores exp rand g_root k).1 := by
  have hpos := Recompute_Recursive_positionwise exp rand g_root k
  unfold Recompute_All_Scores
  refine positionwise_imp ?_ _ _ hpos
  rintro a b ⟨j, _, _, h3⟩
  rw [h3]
  refine ⟨⟨j, rfl⟩, rfl, ?_⟩
  intro h0
  have e : (Recompute_Node_Data exp (rand j) a).monthly_premium =
      Compute_Monthly_Premium exp { a with risk_score := Compute_Risk_Score (rand j) a } := rfl
  have er : (Recompute_Node_Data exp (rand j) a).risk_score = Compute_Risk_Score (rand j) a :=
    rfl
  rw [e, er]
  exact Compute_Monthly_Premium_trust_zero exp _ h0

theorem node_ne_nil {F : Type} (d : Client F) (l r : Node F) : Node.node d l r ≠ Node.nil :=
  fun h => Node.noConfusion h

theorem filter_split_of_sorted {F : Type} (L : List (Client F)) (k : Int)
    (hs : (L.map Client.client_id).Pairwise (fun a b => a < b))
    (hk : k ∈ L.map Client.client_id) :
    ∃ pre c post, L = pre ++ c :: post ∧ c.client_id = k ∧
      L.filter (fun c => decide (c.client_id ≠ k)) = pre ++ post ∧
      ∀ x ∈ pre ++ post, x.client_id ≠ k := by
  obtain ⟨c, hc, hck⟩ := List.mem_map.1 hk
  obtain ⟨pre, post, hL⟩ := List.append_of_mem hc
  rw [hL, List.map_append, List.map_cons, List.pairwise_append, List.pairwise_cons] at hs
  obtain ⟨_, ⟨hpost, _⟩, hpre⟩ := hs
  have npre : ∀ x ∈ pre, x.client_id ≠ k := by
    intro x hx
    rw [← hck]
    exact ne_of_lt (hpre _ (List.mem_map_of_mem _ hx) _ (List.mem_cons_self _ _))
  have npost : ∀ x ∈ post, x.client_id ≠ k := by
    intro x hx
    rw [← hck]
    exact ne_of_gt (hpost _ (List.mem_map_of_mem _ hx))
  refine ⟨pre, c, post, hL, hck, ?_, ?_⟩
  · rw [hL, List.filter_append, List.filter_cons_of_neg (by simp [hck]),
      filter_ne_eq_self pre k npre, filter_ne_eq_self post k npost]
  · intro x hx
    rcases List.mem_append.1 hx with h | h
    · exact npre x h
    · exact npost x h

/-- C19: on an id-ordered tree, `Retrieve_Client_By_Id` returns a node exactly
when some record of the in-order traversal has that id, and the node returned
holds a record with that id which is the only record of the traversal with it.
The ordering is needed: in `misordered_tree`, which is not id-ordered, id 0 is in
the traversal and the lookup of 0 returns null. -/
theorem C19_retrieve_iff_in_traversal {F : Type} [LinearOrderedField F] (t : Node F)
    (k : Int) (h : Ordered t) :
    (Retrieve_Client_By_Id t k ≠ Node.nil ↔ ∃ c ∈ Inorder_Traversal t, c.client_id = k) ∧
      (∀ d l r, Retrieve_Client_By_Id t k = Node.node d l r →
        d.client_id = k ∧ d ∈ Inorder_Traversal t ∧
        ∀ x ∈ Inorder_Traversal t, x.client_id = k → x = d) ∧
      (¬ Ordered (misordered_tree : Node F) ∧
        (∃ c ∈ Inorder_Traversal (misordered_tree : Node F), c.client_id = 0) ∧
        Retrieve_Client_By_Id (misordered_tree : Node F) 0 = Node.nil) := by
  unfold Retrieve_Client_By_Id
  refine ⟨⟨?_, ?_⟩, ?_, ?_, ?_, ?_⟩
  · intro hne
    cases hs : Search_Node t k with
    | nil => exact absurd hs hne
    | node d l r =>
      obtain ⟨h1, h2⟩ := Search_Node_found hs
      exact ⟨d, h2, h1⟩
  · rintro ⟨c, hc, rfl⟩
    obtain ⟨l, r, hs⟩ := Search_Node_of_mem t c h hc
    rw [hs]
    exact node_ne_nil c l r
  · intro d l r hs
    obtain ⟨h1, h2⟩ := Search_Node_found hs
    refine ⟨h1, h2, ?_⟩
    intro x hx hxk
    obtain ⟨l1, r1, hs1⟩ := Search_Node_of_mem t x h hx
    rw [hxk, hs] at hs1
    injection hs1 with hd _ _
    exact hd.symm
  · unfold Ordered
    rw [show ids (misordered_tree : Node F) = [1, 0] from rfl]
    decide
  · exact ⟨client_of_id 0, by simp [misordered_tree], rfl⟩
  · simp [misordered_tree, Search_Node, client_of_id]

/-- C19 at the scenario store for the present id 40 and the absent id 55. -/
theorem C19_retrieve_iff_in_traversal_witness :
    Retrieve_Client_By_Id (store_after scenario_calls) 40 =
        Node.node (client_of_id 40) Node.nil Node.nil ∧
      ((Retrieve_Client_By_Id (store_after scenario_calls) 40 ≠ Node.nil ↔
          ∃ c ∈ Inorder_Traversal (store_after scenario_calls), c.client_id = 40) ∧
        (∀ d l r, Retrieve_Client_By_Id (store_after scenario_calls) 40 = Node.node d l r →
          d.client_id = 40 ∧ d ∈ Inorder_Traversal (store_after scenario_calls) ∧
          ∀ x ∈ Inorder_Traversal (store_after scenario_calls), x.client_id = 40 → x = d) ∧
        (¬ Ordered (misordered_tree : Node ℚ) ∧
          (∃ c ∈ Inorder_Traversal (misordered_tree : Node ℚ), c.client_id = 0) ∧
          Retrieve_Client_By_Id (misordered_tree : Node ℚ) 0 = Node.nil)) := by
  refine ⟨?_, C19_retrieve_iff_in_traversal (store_after scenario_calls) 40
    (by rw [scenario_store_eq]; unfold Ordered; decide)⟩
  rw [scenario_store_eq]
  rfl

/-- C20: on an id-ordered tree, for an id present in it, `Remove_Client_By_Id`
returns true and the in-order traversal afterwards is the traversal before
with the single record of that id taken out: the records before it and after
it are all still there, in the same order and unchanged in every field, and
none of them has that id. This covers the two-children case, where a node's
data is overwritten by its successor's. -/
theorem C20_remove_exactly_target {F : Type} (t : Node F) (k : Int) (h : Ordered t)
    (hk : k ∈ ids t) :
    (Remove_Client_By_Id t k).1 = true ∧
      Inorder_Traversal (Remove_Client_By_Id t k).2 =
        (Inorder_Traversal t).filter (fun c => decide (c.client_id ≠ k)) ∧
      ∃ pre c post, Inorder_Traversal t = pre ++ c :: post ∧ c.client_id = k ∧
        Inorder_Traversal (Remove_Client_By_Id t k).2 = pre ++ post ∧
        ∀ x ∈ pre ++ post, x.client_id ≠ k := by
  have hr : Remove_Client_By_Id t k = (true, Remove_Node t k) := by
    unfold Remove_Client_By_Id
    rw [isNull_Search_Node_of_mem t k h hk]
    rfl
  rw [hr]
  refine ⟨rfl, Inorder_Remove_Node t k h, ?_⟩
  obtain ⟨pre, c, post, h1, h2, h3, h4⟩ := filter_split_of_sorted (Inorder_Traversal t) k h hk
  exact ⟨pre, c, post, h1, h2, (Inorder_Remove_Node t k h).trans h3, h4⟩

/-- C20 at the scenario store: removing the two-children root 50 leaves the
records of ids 20, 30, 40, 60, 70, 80, in that order. -/
theorem C20_remove_exactly_target_witness :
    Inorder_Traversal (Remove_Client_By_Id (store_after scenario_calls) 50).2 =
        [client_of_id 20, client_of_id 30, client_of_id 40, client_of_id 60, client_of_id 70,
          client_of_id 80] ∧
      ((Remove_Client_By_Id (store_after scenario_calls) 50).1 = true ∧
        Inorder_Traversal (Remove_Client_By_Id (store_after scenario_calls) 50).2 =
          (Inorder_Traversal (store_after scenario_calls)).filter
            (fun c => decide (c.client_id ≠ 50)) ∧
        ∃ pre c post, Inorder_Traversal (store_after scenario_calls) = pre ++ c :: post ∧
          c.client_id = 50 ∧
          Inorder_Traversal (Remove_Client_By_Id (store_after scenario_calls) 50).2 =
            pre ++ post ∧
          ∀ x ∈ pre ++ post, x.client_id ≠ 50) := by
  refine ⟨?_, C20_remove_exactly_target (store_after scenario_calls) 50
    (by rw [scenario_store_eq]; unfold Ordered; decide)
    (by rw [scenario_store_eq]; decide)⟩
  rw [scenario_store_eq]
  rfl

/-! ## Validation of a `car_value` that can be NaN -/

section NaN

variable {F : Type} [LinearOrderedField F]

theorem Dbl.lt_zero_iff (x : Dbl F) :
    x < 0 ↔ x = Dbl.neg_inf ∨ ∃ y : F, x = Dbl.fin y ∧ y < 0 := by
  cases x with
  | nan => exact ⟨fun h => False.elim h, by rintro (h | ⟨y, h, _⟩) <;> cases h⟩
  | neg_inf => exact ⟨fun _ => Or.inl rfl, fun _ => True.intro⟩
  | fin y =>
    constructor
    · intro h
      exact Or.inr ⟨y, rfl, h⟩
    · rintro (h | ⟨z, h, hz⟩)
      · cases h
      · injection h with h
        subst h
        exact hz
  | pos_inf => exact ⟨fun h => False.elim h, by rintro (h | ⟨y, h, _⟩) <;> cases h⟩

theorem Dbl.zero_le_iff (x : Dbl F) :
    0 ≤ x ↔ x = Dbl.pos_inf ∨ ∃ y : F, x = Dbl.fin y ∧ 0 ≤ y := by
  cases x with
  | nan => exact ⟨fun h => False.elim h, by rintro (h | ⟨y, h, _⟩) <;> cases h⟩
  | neg_inf => exact ⟨fun h => False.elim h, by rintro (h | ⟨y, h, _⟩) <;> cases h⟩
  | fin y =>
    constructor
    · intro h
      exact Or.inr ⟨y, rfl, h⟩
    · rintro (h | ⟨z, h, hz⟩)
      · cases h
      · injection h with h
        subst h
        exact hz
  | pos_inf => exact ⟨fun _ => Or.inl rfl, fun _ => True.intro⟩

/-- A double that is not NaN is `>= 0` exactly when it is not `< 0`. -/
theorem Dbl.not_lt_zero_iff (x : Dbl F) (hx : x ≠ Dbl.nan) : ¬ x < 0 ↔ 0 ≤ x := by
  rw [Dbl.lt_zero_iff, Dbl.zero_le_iff]
  cases x with
  | nan => exact absurd rfl hx
  | neg_inf => simp
  | fin y => simp
  | pos_inf => simp

/-- NaN is neither `< 0` nor `>= 0`. -/
theorem Dbl.nan_unordered : ¬ (Dbl.nan : Dbl F) < 0 ∧ ¬ (0 : Dbl F) ≤ Dbl.nan :=
  ⟨fun h => h, fun h => h⟩

/-- Where `car_value` is not NaN, `Is_Valid_Client_Data` returns true exactly
when every rule of the specification holds. -/
theorem Is_Valid_Client_Data_iff_of_not_nan (c : Client (Dbl F)) (h : c.car_value ≠ Dbl.nan) :
    Is_Valid_Client_Data c = true ↔
      0 ≤ c.client_id ∧ 18 ≤ c.client_age ∧ 0 ≤ c.car_value ∧
      0 ≤ c.nb_accidents_due ∧ 0 ≤ c.nb_accidents_not_due ∧ 0 ≤ c.nb_suspensions ∧
      c.client_name ≠ "" ∧ c.phone_number ≠ "" ∧ c.address ≠ "" ∧ c.policy_type ≠ "" := by
  rw [← Dbl.not_lt_zero_iff c.car_value h]
  unfold Is_Valid_Client_Data
  simp only [String.isEmpty_iff]
  split_ifs <;> simp_all
  omega

end NaN

/-- C9, evaluated on the code: for the record `nan_client`, whose `car_value` is
NaN and whose other fields are well formed, `Is_Valid_Client_Data` returns true
(the test `car_value < 0` is false for NaN) although `car_value >= 0` is false;
so the equivalence of the claim fails at this record. -/
theorem C9_nan_car_value_accepted :
    Is_Valid_Client_Data nan_client = true ∧
      ¬ (0 ≤ nan_client.car_value) ∧
      ¬ (Is_Valid_Client_Data nan_client = true ↔
        0 ≤ nan_client.client_id ∧ 18 ≤ nan_client.client_age ∧ 0 ≤ nan_client.car_value ∧
        0 ≤ nan_client.nb_accidents_due ∧ 0 ≤ nan_client.nb_accidents_not_due ∧
        0 ≤ nan_client.nb_suspensions ∧
        nan_client.client_name ≠ "" ∧ nan_client.phone_number ≠ "" ∧
        nan_client.address ≠ "" ∧ nan_client.policy_type ≠ "") := by
  have hv : Is_Valid_Client_Data nan_client = true := by decide
  have hn : ¬ (0 ≤ nan_client.car_value) := fun h => h
  exact ⟨hv, hn, fun h => hn (h.1 hv).2.2.1⟩

/-- C14, evaluated on the code: `Insert_Client` of `nan_client` into the empty
store is accepted, so the store then holds a record whose `car_value` is NaN,
for which the rule `car_value >= 0` fails. -/
theorem C14_nan_record_stored :
    store_after [Call.insert nan_client] = Node.node nan_client Node.nil Node.nil ∧
      nan_client ∈ Inorder_Traversal (store_after [Call.insert nan_client]) ∧
      ¬ (0 ≤ nan_client.car_value) := by
  have hv : Is_Valid_Client_Data nan_client = true := by decide
  have e : store_after [Call.insert nan_client] = Node.node nan_client Node.nil Node.nil := by
    simp [store_after, apply_call, Insert_Client, hv, Insert_Node, Create_Node]
  refine ⟨e, ?_, fun h => h⟩
  rw [e]
  simp

/-- C15, evaluated on the code: for `nan_nameless_client` (`car_value` NaN, empty
name) the first failing rule in the specification's order is the `car_value`
rule, but the message printed is that of the later `client_name` rule; and for
`nan_client`, which fails the `car_value` rule only, no message is printed and
true is returned. -/
theorem C15_nan_reports_later_rule :
    (first_failing_rule nan_nameless_client = some Rule.car_value ∧
      Is_Valid_Client_Data_out nan_nameless_client = ([Rule.client_name.message], false) ∧
      Rule.client_name.message ≠ Rule.car_value.message) ∧
    (first_failing_rule nan_client = some Rule.car_value ∧
      Is_Valid_Client_Data_out nan_client = ([], true)) := by
  refine ⟨⟨?_, ?_, ?_⟩, ?_, ?_⟩
  · rfl
  · decide
  · decide
  · rfl
  · decide

/-! ## The accident loop with a 32-bit counter -/

section Int32Loop

variable {F : Type} [LinearOrderedField F]

/-- For `nb_accidents_due = INT_MAX` the loop produces no value, however many
loop tests are allowed: the counter reaches `INT_MAX` and `++i` overflows. -/
theorem accidents_loop_int32_overflow (fuel : Nat) (i : Int) (acc : F) (hi : i ≤ INT_MAX) :
    accidents_loop_int32 INT_MAX fuel i acc = none := by
  induction fuel generalizing i acc with
  | zero => rfl
  | succ fuel ih =>
    rw [accidents_loop_int32, if_pos hi]
    by_cases h : i = INT_MAX
    · rw [if_pos h]
    · rw [if_neg h]
      exact ih (i + 1) _ (by omega)

/-- For `n < INT_MAX`, with `k` iterations still to run and at least `k + 1`
loop tests allowed, the 32-bit loop returns the value of the unbounded one. -/
theorem accidents_loop_int32_eq (n : Int) (hn : n < INT_MAX) (k extra : Nat) (i : Int)
    (acc : F) (hk : i + k = n + 1) :
    accidents_loop_int32 n (k + 1 + extra) i acc = some (accidents_loop n k i acc) := by
  induction k generalizing i acc with
  | zero =>
    have h : ¬ i ≤ n := by
      simp only [Nat.cast_zero, add_zero] at hk
      omega
    rw [show 0 + 1 + extra = extra + 1 by omega, accidents_loop_int32, if_neg h]
    rfl
  | succ k ih =>
    have h : i ≤ n := by push_cast at hk; omega
    have h2 : i ≠ INT_MAX := by omega
    rw [show k + 1 + 1 + extra = (k + 1 + extra) + 1 by omega, accidents_loop_int32, if_pos h,
      if_neg h2, ih (i + 1) _ (by push_cast at hk ⊢; omega), accidents_loop, if_pos h]

/-- For `nb_accidents_due < INT_MAX` and enough loop tests, the source returns
the value of `Compute_Risk_Score`. -/
theorem Compute_Risk_Score_int32_eq (r : Nat) (c : Client F)
    (hn : c.nb_accidents_due < INT_MAX) (extra : Nat) :
    Compute_Risk_Score_int32 (c.nb_accidents_due.toNat + 1 + extra) r c =
      some (Compute_Risk_Score r c) := by
  have hloop : accidents_loop_int32 c.nb_accidents_due (c.nb_accidents_due.toNat + 1 + extra)
      1 (0 : F) = some (accidents_loop c.nb_accidents_due c.nb_accidents_due.toNat 1 0) := by
    by_cases h0 : 0 ≤ c.nb_accidents_due
    · exact accidents_loop_int32_eq _ hn _ extra 1 0 (by omega)
    · have e : c.nb_accidents_due.toNat = 0 := by omega
      rw [e, show 0 + 1 + extra = extra + 1 by omega, accidents_loop_int32,
        if_neg (by omega)]
      rfl
  unfold Compute_Risk_Score_int32 Compute_Risk_Score
  simp only [hloop]

/-- For `nb_accidents_due = INT_MAX` the source returns no value. -/
theorem Compute_Risk_Score_int32_overflow (fuel r : Nat) (c : Client F)
    (hn : c.nb_accidents_due = INT_MAX) : Compute_Risk_Score_int32 fuel r c = none := by
  unfold Compute_Risk_Score_int32
  simp only [hn, accidents_loop_int32_overflow fuel 1 (0 : F) (by decide)]

end Int32Loop

/-- C12, evaluated on the code: `overflow_client` has `nb_accidents_due = INT_MAX`
(which is `>= 0`) and passes `Is_Valid_Client_Data`, yet `Compute_Risk_Score`
returns no value for it, whatever the random draw and however long the loop is
left to run: the counter `i` reaches `INT_MAX` with `i <= nb_accidents_due`
still true, and `++i` overflows. -/
theorem C12_INT_MAX_no_value (fuel v : Nat) :
    Is_Valid_Client_Data overflow_client = true ∧
      0 ≤ overflow_client.nb_accidents_due ∧
      overflow_client.nb_accidents_due = INT_MAX ∧
      Compute_Risk_Score_int32 fuel v overflow_client = none := by
  refine ⟨?_, by decide, rfl, Compute_Risk_Score_int32_overflow fuel v overflow_client rfl⟩
  simp [Is_Valid_Client_Data, overflow_client, client_of_id]
  decide

end Claims

end DMT
